import Mathlib

/-!
# Verification of the `just-getopt` command-line option parser

This file gives a shallow embedding, in Lean 4, of the `just-getopt`
Rust crate (a Posix/GNU-`getopt_long`-like command-line parser) and
proves or refutes a fixed list of claims about it.

The embedding follows `src/parser.rs` and `src/lib.rs`:

* Rust `String` is modelled as Lean `String`; all character-level
  operations work on `String.data : List Char`, matching the Rust
  code's use of `s.chars()` (Unicode scalar values).
* The argument iterator is modelled as a `List String`; the parser's
  two loops become structurally recursive functions (`parse_main`,
  `parse_drain`) threading the explicit state (remaining input,
  argument counter, accumulated `Args`).
* The repository snapshot mixes two evolution stages: `parser.rs`
  calls `OptSpecs::is_under_limit`, reads `OptValueType` and sets
  `Args::arg_limit_exceeded`, none of which are declared in the
  accompanying `lib.rs` (which instead declares a five-variant
  `OptValue` and three per-category limits exercised by its tests).
  The pieces missing from the sources are modelled from the spec and
  are marked `Modelled from the spec:` in their doc comments.
-/

set_option maxHeartbeats 1000000

namespace JustGetopt

/-! ## Lexical helpers (src/parser.rs lines 201-316) -/

def OPTION_TERMINATOR : String := "--"

def LONG_OPTION_PREFIX : String := "--"

def SHORT_OPTION_PREFIX : String := "-"

def INVALID_SHORT_OPTION_CHARS : String := " -"

def INVALID_LONG_OPTION_CHARS : String := " ="

/-- `is_option_terminator` (parser.rs 207-209): the token is exactly `--`. -/
def is_option_terminator (s : String) : Bool :=
  s == OPTION_TERMINATOR

/-- `is_long_option_prefix` (parser.rs 211-225): the token starts with the
`--` prefix and has a third character which is not `-`.  The Rust code
checks `s.starts_with("--")`, `chars.len() > 2` and `chars[2] != '-'`;
on `List Char` this is exactly the pattern below. -/
def is_long_option_prefix (s : String) : Bool :=
  match s.data with
  | '-' :: '-' :: c :: _ => c != '-'
  | _ => false

/-- `get_long_option` (parser.rs 227-238): the characters after the `--`
prefix.  The Rust function panics when the argument is not a long-option
token; every call site inside `parse` is guarded by
`is_long_option_prefix`, so the embedding is total. -/
def get_long_option (s : String) : String :=
  String.mk (s.data.drop LONG_OPTION_PREFIX.data.length)

/-- `get_long_option_name` (parser.rs 240-247): the part of the long
option before the first `=` (Rust: `option.split('=').next()`). -/
def get_long_option_name (s : String) : String :=
  String.mk ((get_long_option s).data.takeWhile (fun c => c != '='))

/-- `is_long_option_equal_sign` (parser.rs 249-259): whether the long
option contains `=` after its first two name characters.  The Rust code
scans the slice `chars[2..]` of the option (the comment in the source
notes a long option name is at least 2 characters). -/
def is_long_option_equal_sign (s : String) : Bool :=
  ((get_long_option s).data.drop 2).contains '='

/-- The same scan as `is_long_option_equal_sign`, but modelling the Rust
slice expression `&chars[2..]` faithfully: slicing with `2..` panics
when the char vector has fewer than 2 elements, which the embedding
renders as `none`. -/
def is_long_option_equal_sign_checked (s : String) : Option Bool :=
  let chars := (get_long_option s).data
  if chars.length < 2 then none
  else some ((chars.drop 2).contains '=')

/-- `get_long_option_equal_value` (parser.rs 261-268): the part after
the first `=`, or `""` when there is no `=` (Rust `split_once('=')`). -/
def get_long_option_equal_value (s : String) : String :=
  let option := (get_long_option s).data
  if option.contains '=' then String.mk ((option.dropWhile (fun c => c != '=')).drop 1)
  else ""

/-- `is_valid_long_option_name` (parser.rs 270-280): does not start with
`-`, is at least 2 characters long, and contains no space and no `=`. -/
def is_valid_long_option_name (s : String) : Bool :=
  if (match s.data with | '-' :: _ => true | _ => false) || s.data.length < 2 then false
  else !(INVALID_LONG_OPTION_CHARS.data.any (fun c => s.data.contains c))

/-- `is_valid_short_option_name` (parser.rs 282-292): exactly one
character, which is neither a space nor `-`. -/
def is_valid_short_option_name (s : String) : Bool :=
  if s.data.length != 1 then false
  else !(INVALID_SHORT_OPTION_CHARS.data.any (fun c => s.data.contains c))

/-- `is_short_option_prefix` (parser.rs 294-306): starts with `-`, has a
second character, and that character is a valid short option name. -/
def is_short_option_prefix (s : String) : Bool :=
  match s.data with
  | '-' :: c :: _ => is_valid_short_option_name (String.mk [c])
  | _ => false

/-- `get_short_option_series` (parser.rs 308-316): the characters after
the `-` prefix. -/
def get_short_option_series (s : String) : String :=
  String.mk (s.data.drop SHORT_OPTION_PREFIX.data.length)

/-! ## Registry as consumed by src/parser.rs

`parser.rs` imports `OptValueType` with the three variants it matches
on (`Required`, `Optional`, `None`) and queries `OptSpecs` through
`is_flag`, `is_under_limit`, `get_short_option_match`,
`get_long_option_match` and `get_long_option_prefix_matches`. -/

inductive OptValueType where
  | required
  | optional
  | none
deriving DecidableEq, Repr

structure OptSpec where
  id : String
  name : String
  value_type : OptValueType
deriving DecidableEq, Repr

inductive OptFlags where
  | OptionsEverywhere
  | PrefixMatchLongOptions
deriving DecidableEq, Repr

/-- The default value of the collection limit (lib.rs 360:
`COUNTER_LIMIT = u32::MAX`). -/
def COUNTER_LIMIT : Nat := 4294967295

/-- The option registry.  `options` and `flags` are as in lib.rs
(lines 352-358).  `limit` is the argument-count bound consulted by
`parser.rs` through `is_under_limit`; that method and its backing field
are absent from the `lib.rs` in the snapshot (which declares three
per-category limits for a newer parser instead), so the field is
modelled from the spec's counter-limit description with the unbounded
default `COUNTER_LIMIT`. -/
structure OptSpecs where
  options : List OptSpec
  flags : List OptFlags
  limit : Nat
deriving DecidableEq, Repr

def OptSpecs.is_flag (specs : OptSpecs) (flag : OptFlags) : Bool :=
  specs.flags.contains flag

/-- Modelled from the spec: `OptSpecs::is_under_limit`, called by
`parser.rs` (lines 11, 53, 126, 182) but not defined anywhere in the
snapshot.  Per the spec's limit bookkeeping, a counter is under the
limit while it is strictly below the configured bound. -/
def OptSpecs.is_under_limit (specs : OptSpecs) (count : Nat) : Bool :=
  count < specs.limit

/-- `OptSpecs::get_short_option_match` (lib.rs 598-603). -/
def OptSpecs.get_short_option_match (specs : OptSpecs) (name : String) : Option OptSpec :=
  if name.data.length != 1 then none
  else specs.options.find? (fun e => e.name == name)

/-- `OptSpecs::get_long_option_match` (lib.rs 605-610). -/
def OptSpecs.get_long_option_match (specs : OptSpecs) (name : String) : Option OptSpec :=
  if name.data.length < 2 then none
  else specs.options.find? (fun e => e.name == name)

/-- Character-list prefix test, used for Rust's `str::starts_with`. -/
def starts_with_chars : List Char → List Char → Bool
  | _, [] => true
  | [], _ :: _ => false
  | c :: cs, p :: ps => c == p && starts_with_chars cs ps

/-- Modelled from the spec: `OptSpecs::get_long_option_prefix_matches`,
called by `parser.rs` (line 30) but not defined in the snapshot's
`lib.rs` (which has the newer single-result
`get_long_option_prefix_match` instead).  Per the spec's
`lookup_long_prefix`, it collects every declared option whose name
starts with the given string, and reports no match when the collection
is empty. -/
def OptSpecs.get_long_option_prefix_matches (specs : OptSpecs) (name : String) :
    Option (List OptSpec) :=
  if name.data.length < 2 then none
  else
    match specs.options.filter (fun e => starts_with_chars e.name.data name.data) with
    | [] => none
    | ms => some ms

/-! ## Parsed output (lib.rs `Opt`, `Args`) -/

structure Opt where
  id : String
  name : String
  value_required : Bool
  value : Option String
deriving DecidableEq, Repr

/-- The parse result.  `options`, `other` and `unknown` are the fields
of `Args` in lib.rs (lines 648-685).  `arg_limit_exceeded` is the flag
set by `parser.rs` line 184; it is absent from the snapshot's `lib.rs`
declaration and is modelled from the spec's "limit exceeded indicator
(in variants that track it)". -/
structure Args where
  options : List Opt
  other : List String
  unknown : List String
  arg_limit_exceeded : Bool
deriving DecidableEq, Repr

/-- `Args::new` (lib.rs 688-694). -/
def Args.new : Args :=
  { options := [], other := [], unknown := [], arg_limit_exceeded := false }

/-- The repeated unknown-recording pattern of parser.rs (lines 79-82,
98-100 and 168-170): push the name unless it is already recorded. -/
def push_unknown (parsed : Args) (n : String) : Args :=
  if parsed.unknown.contains n then parsed
  else { parsed with unknown := parsed.unknown ++ [n] }

/-- `parsed.options.push(...)` of parser.rs (lines 88-93, 158-163). -/
def push_option (parsed : Args) (o : Opt) : Args :=
  { parsed with options := parsed.options ++ [o] }

/-- The long-option resolution of parser.rs lines 29-42: prefix
matching when the `PrefixMatchLongOptions` flag is set (unique match
required), exact matching otherwise. -/
def long_opt_match (specs : OptSpecs) (name : String) : Option OptSpec :=
  if specs.is_flag .PrefixMatchLongOptions then
    match specs.get_long_option_prefix_matches name with
    | Option.none => Option.none
    | some vec => if vec.length == 1 then vec.head? else Option.none
  else specs.get_long_option_match name

/-- The inner character loop of parser.rs lines 106-172 scanning a
short-option cluster.  The one interaction with the outer argument
iterator — pulling the next whole token as a required value when the
inline remainder is empty (lines 126-133) — is returned to the caller
as a pending `(id, name)` pair, because at that point the scan of the
cluster is finished (the value-taking branches consume every remaining
character); `parse_main` performs the pull and the final option push. -/
def parse_short_cluster (specs : OptSpecs) : List Char → Args → Args × Option (String × String)
  | [], parsed => (parsed, Option.none)
  | c :: cs, parsed =>
    let name := String.mk [c]
    if is_valid_short_option_name name then
      match specs.get_short_option_match name with
      | some spec =>
        match spec.value_type with
        | .required =>
          let chars := String.mk cs
          if 0 < chars.data.length then
            (push_option parsed ⟨spec.id, name, true, some chars⟩, Option.none)
          else
            (parsed, some (spec.id, name))
        | .optional =>
          let chars := String.mk cs
          let value := if 0 < chars.data.length then some chars else Option.none
          (push_option parsed ⟨spec.id, name, false, value⟩, Option.none)
        | .none =>
          parse_short_cluster specs cs (push_option parsed ⟨spec.id, name, false, Option.none⟩)
      | Option.none => parse_short_cluster specs cs (push_unknown parsed name)
    else parse_short_cluster specs cs (push_unknown parsed name)

/-- One iteration of the main-loop body of `parse` (parser.rs lines
23-178), classifying and recording the token `opt`, without the
interaction with the argument iterator.  The result is the updated
state, an optional pending required-value option — both the long branch
(lines 53-60) and the short branch (lines 126-133) contain the same
"pull the next whole token as the value" block, rendered here as the
pending pair `(id, name)` resolved by `parse_main` — and whether the
main loop stops after this token (the `--` terminator of line 23-24, or
the first positional argument without `OptionsEverywhere`, lines
175-178). -/
def handle_token (specs : OptSpecs) (opt : String) (parsed : Args) :
    Args × Option (String × String) × Bool :=
  if is_option_terminator opt then (parsed, Option.none, true)
  else if is_long_option_prefix opt then
    let name := get_long_option_name opt
    if is_valid_long_option_name name then
      match long_opt_match specs name with
      | some spec =>
        match spec.value_type with
        | .required =>
          if is_long_option_equal_sign opt then
            (push_option parsed ⟨spec.id, name, true, some (get_long_option_equal_value opt)⟩,
             Option.none, false)
          else (parsed, some (spec.id, name), false)
        | .optional =>
          (push_option parsed ⟨spec.id, name, false,
            if is_long_option_equal_sign opt then
              some (get_long_option_equal_value opt) else Option.none⟩,
           Option.none, false)
        | .none =>
          if is_long_option_equal_sign opt then
            (push_unknown parsed (name ++ "="), Option.none, false)
          else (push_option parsed ⟨spec.id, name, false, Option.none⟩, Option.none, false)
      | Option.none => (push_unknown parsed name, Option.none, false)
    else (push_unknown parsed name, Option.none, false)
  else if is_short_option_prefix opt then
    match parse_short_cluster specs (get_short_option_series opt).data parsed with
    | (parsed2, pending) => (parsed2, pending, false)
  else if specs.is_flag .OptionsEverywhere then
    ({ parsed with other := parsed.other ++ [opt] }, Option.none, false)
  else ({ parsed with other := parsed.other ++ [opt] }, Option.none, true)

/-- The main loop of `parse` (parser.rs lines 10-179).  The state is
the remaining input, the argument counter `args_count` and the
accumulated result; the function returns the state at the point the
Rust loop executes `break` (or the iterator is exhausted), which is
then handed to `parse_drain`.  A pending required-value option from
`handle_token` consumes the next whole token as its value, guarded by
`is_under_limit` exactly as in parser.rs lines 53-63 and 126-136. -/
def parse_main (specs : OptSpecs) : List String → Nat → Args → List String × Nat × Args
  | [], args_count, parsed => ([], args_count, parsed)
  | opt :: rest, args_count, parsed =>
    if !(specs.is_under_limit args_count) then (opt :: rest, args_count, parsed)
    else
      let count1 := args_count + 1
      match handle_token specs opt parsed with
      | (parsed2, some pending, _) =>
        if specs.is_under_limit count1 then
          match rest with
          | v :: rest2 =>
            parse_main specs rest2 (count1 + 1)
              (push_option parsed2 ⟨pending.1, pending.2, true, some v⟩)
          | [] =>
            ([], count1, push_option parsed2 ⟨pending.1, pending.2, true, Option.none⟩)
        else
          parse_main specs rest count1
            (push_option parsed2 ⟨pending.1, pending.2, true, Option.none⟩)
      | (parsed2, Option.none, true) => (rest, count1, parsed2)
      | (parsed2, Option.none, false) => parse_main specs rest count1 parsed2

/-- The second loop of `parse` (parser.rs lines 181-196): drain the
remaining input into `other` while the counter stays under the limit;
when the limit is reached and tokens remain, set `arg_limit_exceeded`. -/
def parse_drain (specs : OptSpecs) : List String → Nat → Args → Args
  | [], _, parsed => parsed
  | v :: rest2, args_count, parsed =>
    if !(specs.is_under_limit args_count) then { parsed with arg_limit_exceeded := true }
    else parse_drain specs rest2 (args_count + 1) { parsed with other := parsed.other ++ [v] }

def parse (specs : OptSpecs) (args : List String) : Args :=
  match parse_main specs args 0 Args.new with
  | (rest, args_count, parsed) => parse_drain specs rest args_count parsed

/-! ## Query methods on the parse result (lib.rs 717-772)

These methods only read the `options` field, so they are stated on the
shared `Args` structure. -/

/-- `Args::required_value_missing` (lib.rs 717-721). -/
def Args.required_value_missing (a : Args) : List Opt :=
  a.options.filter (fun opt => opt.value_required && opt.value.isNone)

/-- `Args::option_exists` (lib.rs 727-729). -/
def Args.option_exists (a : Args) (id : String) : Bool :=
  a.options.any (fun opt => opt.id == id)

/-- `Args::options_all` (lib.rs 743-745). -/
def Args.options_all (a : Args) (id : String) : List Opt :=
  a.options.filter (fun opt => opt.id == id)

/-- `Args::options_first` (lib.rs 761-763). -/
def Args.options_first (a : Args) (id : String) : Option Opt :=
  a.options.find? (fun opt => opt.id == id)

/-- `Args::options_last` (lib.rs 770-772): `iter().rev().find(...)`. -/
def Args.options_last (a : Args) (id : String) : Option Opt :=
  a.options.reverse.find? (fun opt => opt.id == id)

/-! ## The limit-aware parser declared by the snapshot's lib.rs

The `lib.rs` in the snapshot declares the five-variant `OptValue`
(lines 373-387), per-category limits `option_limit` / `other_limit` /
`unknown_limit` (lines 352-358, set by `limit_options`,
`limit_other_args`, `limit_unknown_options`) and the prefix lookup
`get_long_option_prefix_match` (lines 612-629), and its test module
exercises the parser that consumes them — but that parser's
implementation is not part of the snapshot (the `parser.rs` present is
the earlier single-counter variant embedded above).  The definitions
below model the missing parsing engine from the spec (§4.2 steps 1-7
and the §9 limit-interaction rule), reusing the lexical helpers of
`parser.rs`, and are validated against the expected outputs recorded
in lib.rs's tests (`t_parsed_output_135`, `..._270` etc.). -/

namespace LimitAware

/-- `OptValue` (lib.rs 373-387). -/
inductive OptValue where
  | none
  | optional
  | optionalNonEmpty
  | required
  | requiredNonEmpty
deriving DecidableEq, Repr

structure OptSpecL where
  id : String
  name : String
  value_type : OptValue
deriving DecidableEq, Repr

/-- `OptSpecs` as declared in the snapshot's lib.rs (lines 352-358):
option specifications, behavior flags and the three per-category
collection limits (each defaulting to `COUNTER_LIMIT`). -/
structure OptSpecsL where
  options : List OptSpecL
  flags : List OptFlags
  option_limit : Nat
  other_limit : Nat
  unknown_limit : Nat
deriving DecidableEq, Repr

def OptSpecsL.is_flag (specs : OptSpecsL) (flag : OptFlags) : Bool :=
  specs.flags.contains flag

/-- `OptSpecs::get_short_option_match` (lib.rs 598-603). -/
def OptSpecsL.get_short_option_match (specs : OptSpecsL) (name : String) : Option OptSpecL :=
  if name.data.length != 1 then Option.none
  else specs.options.find? (fun e => e.name == name)

/-- `OptSpecs::get_long_option_match` (lib.rs 605-610). -/
def OptSpecsL.get_long_option_match (specs : OptSpecsL) (name : String) : Option OptSpecL :=
  if name.data.length < 2 then Option.none
  else specs.options.find? (fun e => e.name == name)

/-- The loop body of `get_long_option_prefix_match` (lib.rs 617-628):
walk the declarations; a first prefix match is remembered, a second one
makes the lookup fail (ambiguous). -/
def prefix_match_loop (name : String) : List OptSpecL → Option OptSpecL → Option OptSpecL
  | [], result => result
  | e :: es, result =>
    if starts_with_chars e.name.data name.data then
      match result with
      | Option.none => prefix_match_loop name es (some e)
      | some _ => Option.none
    else prefix_match_loop name es result

/-- `OptSpecs::get_long_option_prefix_match` (lib.rs 612-629). -/
def OptSpecsL.get_long_option_prefix_match (specs : OptSpecsL) (name : String) : Option OptSpecL :=
  if name.data.length < 2 then Option.none
  else prefix_match_loop name specs.options Option.none

/-- Modelled from the spec: recording a recognized option subject to
the recognized-options limit (spec §4.1 `set_limit`, §4.2; lib.rs
`limit_options` doc: "maximum number of valid options to collect, the
rest is ignored"). -/
def push_optionL (specs : OptSpecsL) (parsed : Args) (o : Opt) : Args :=
  if parsed.options.length < specs.option_limit then
    { parsed with options := parsed.options ++ [o] }
  else parsed

/-- Modelled from the spec: recording an unknown token, deduplicated
and subject to the unknown-options limit (lib.rs `limit_unknown_options`
doc: "maximum number of unique unknown options to collect; duplicates
are not collected"). -/
def push_unknownL (specs : OptSpecsL) (parsed : Args) (n : String) : Args :=
  if parsed.unknown.contains n then parsed
  else if parsed.unknown.length < specs.unknown_limit then
    { parsed with unknown := parsed.unknown ++ [n] }
  else parsed

/-- Modelled from the spec: recording a positional argument subject to
the other-arguments limit (lib.rs `limit_other_args`). -/
def push_otherL (specs : OptSpecsL) (parsed : Args) (v : String) : Args :=
  if parsed.other.length < specs.other_limit then
    { parsed with other := parsed.other ++ [v] }
  else parsed

/-- Modelled from the spec (§4.2 step 1): the main loop stops early
once all three collection limits are saturated. -/
def saturatedL (specs : OptSpecsL) (parsed : Args) : Bool :=
  decide (specs.option_limit ≤ parsed.options.length) &&
  decide (specs.other_limit ≤ parsed.other.length) &&
  decide (specs.unknown_limit ≤ parsed.unknown.length)

/-- The long-option resolution with the `PrefixMatchLongOptions` flag
(spec §4.2 step 4, lib.rs lookups). -/
def long_opt_matchL (specs : OptSpecsL) (name : String) : Option OptSpecL :=
  if specs.is_flag .PrefixMatchLongOptions then specs.get_long_option_prefix_match name
  else specs.get_long_option_match name

/-- Modelled from the spec (§4.2 step 5): the short-option cluster scan
for the five value policies.  A required-value option reached with an
empty inline remainder is returned as pending `(id, name, policy)`; the
caller consumes the next whole token for it (§9: "consume regardless of
whether it will be recorded"). -/
def parse_short_clusterL (specs : OptSpecsL) :
    List Char → Args → Args × Option (String × String × OptValue)
  | [], parsed => (parsed, Option.none)
  | c :: cs, parsed =>
    let name := String.mk [c]
    if is_valid_short_option_name name then
      match specs.get_short_option_match name with
      | some spec =>
        match spec.value_type with
        | .required =>
          let chars := String.mk cs
          if 0 < chars.data.length then
            (push_optionL specs parsed ⟨spec.id, name, true, some chars⟩, Option.none)
          else (parsed, some (spec.id, name, OptValue.required))
        | .requiredNonEmpty =>
          let chars := String.mk cs
          if 0 < chars.data.length then
            (push_optionL specs parsed ⟨spec.id, name, true, some chars⟩, Option.none)
          else (parsed, some (spec.id, name, OptValue.requiredNonEmpty))
        | .optional =>
          let chars := String.mk cs
          (push_optionL specs parsed
            ⟨spec.id, name, false, if 0 < chars.data.length then some chars else Option.none⟩,
           Option.none)
        | .optionalNonEmpty =>
          let chars := String.mk cs
          (push_optionL specs parsed
            ⟨spec.id, name, false, if 0 < chars.data.length then some chars else Option.none⟩,
           Option.none)
        | .none =>
          parse_short_clusterL specs cs (push_optionL specs parsed ⟨spec.id, name, false, Option.none⟩)
      | Option.none => parse_short_clusterL specs cs (push_unknownL specs parsed name)
    else parse_short_clusterL specs cs (push_unknownL specs parsed name)

/-- Modelled from the spec (§4.2): one iteration of the limit-aware
main loop body, classifying and recording the token, with the pending
required-value option (long or short) handed back together with its
policy so that the caller can normalize an empty consumed value for
`RequiredNonEmpty`. -/
def handle_tokenL (specs : OptSpecsL) (opt : String) (parsed : Args) :
    Args × Option (String × String × OptValue) × Bool :=
  if is_option_terminator opt then (parsed, Option.none, true)
  else if is_long_option_prefix opt then
    let name := get_long_option_name opt
    if is_valid_long_option_name name then
      match long_opt_matchL specs name with
      | some spec =>
        match spec.value_type with
        | .required =>
          if is_long_option_equal_sign opt then
            (push_optionL specs parsed
              ⟨spec.id, name, true, some (get_long_option_equal_value opt)⟩,
             Option.none, false)
          else (parsed, some (spec.id, name, OptValue.required), false)
        | .requiredNonEmpty =>
          if is_long_option_equal_sign opt then
            (push_optionL specs parsed
              ⟨spec.id, name, true,
                if get_long_option_equal_value opt = "" then Option.none
                else some (get_long_option_equal_value opt)⟩,
             Option.none, false)
          else (parsed, some (spec.id, name, OptValue.requiredNonEmpty), false)
        | .optional =>
          (push_optionL specs parsed
            ⟨spec.id, name, false,
              if is_long_option_equal_sign opt then
                some (get_long_option_equal_value opt) else Option.none⟩,
           Option.none, false)
        | .optionalNonEmpty =>
          (push_optionL specs parsed
            ⟨spec.id, name, false,
              if is_long_option_equal_sign opt then
                (if get_long_option_equal_value opt = "" then Option.none
                 else some (get_long_option_equal_value opt))
              else Option.none⟩,
           Option.none, false)
        | .none =>
          if is_long_option_equal_sign opt then
            (push_unknownL specs parsed (name ++ "="), Option.none, false)
          else
            (push_optionL specs parsed ⟨spec.id, name, false, Option.none⟩,
             Option.none, false)
      | Option.none => (push_unknownL specs parsed name, Option.none, false)
    else (push_unknownL specs parsed name, Option.none, false)
  else if is_short_option_prefix opt then
    match parse_short_clusterL specs (get_short_option_series opt).data parsed with
    | (parsed2, pending) => (parsed2, pending, false)
  else if specs.is_flag .OptionsEverywhere then
    (push_otherL specs parsed opt, Option.none, false)
  else (push_otherL specs parsed opt, Option.none, true)

/-- Modelled from the spec (§4.2): the main loop of the limit-aware
parsing engine.  A required value with no inline or `=` form consumes
the next token unconditionally (§9), and every recording is subject to
its category limit. -/
def parse_mainL (specs : OptSpecsL) : List String → Args → List String × Args
  | [], parsed => ([], parsed)
  | opt :: rest, parsed =>
    if saturatedL specs parsed then (opt :: rest, parsed)
    else
      match handle_tokenL specs opt parsed with
      | (parsed2, some pending, _) =>
        match rest with
        | v :: rest2 =>
          parse_mainL specs rest2
            (push_optionL specs parsed2 ⟨pending.1, pending.2.1, true,
              if pending.2.2 = OptValue.requiredNonEmpty ∧ v = "" then Option.none else some v⟩)
        | [] => ([], push_optionL specs parsed2 ⟨pending.1, pending.2.1, true, Option.none⟩)
      | (parsed2, Option.none, true) => (rest, parsed2)
      | (parsed2, Option.none, false) => parse_mainL specs rest parsed2

/-- Modelled from the spec (§4.2 step 7): drain the remaining tokens
into `other`, subject to the other-arguments limit. -/
def parse_drainL (specs : OptSpecsL) : List String → Args → Args
  | [], parsed => parsed
  | v :: rest, parsed => parse_drainL specs rest (push_otherL specs parsed v)

/-- Modelled from the spec: the limit-aware `parse`. -/
def parseL (specs : OptSpecsL) (args : List String) : Args :=
  match parse_mainL specs args Args.new with
  | (rest, parsed) => parse_drainL specs rest parsed

end LimitAware

/-! ## Token accounting

To state the spec's accounting property ("every element of the input
is accounted for in exactly one of: a consumed value, an option token,
an `other` entry, or an `unknown` entry — except the `--` terminator"),
each input token is assigned one `Fate`.  `token_fates` mirrors the
control flow of `parse_main` in the regime where the argument-count
limit never intervenes: which branch is taken for a token depends only
on the token, the registry, and whether a preceding option consumed it
as a value. -/

inductive Fate where
  | terminator
  | longOpt
  | shortOpt
  | value
  | other
deriving DecidableEq, Repr

/-- Whether scanning a short-option cluster ends in a required-value
option with an empty inline remainder, so that the parser consumes the
next whole token as its value (parser.rs lines 118-137). -/
def cluster_consumes_next (specs : OptSpecs) : List Char → Bool
  | [] => false
  | c :: cs =>
    let name := String.mk [c]
    if is_valid_short_option_name name then
      match specs.get_short_option_match name with
      | some spec =>
        match spec.value_type with
        | .required => cs.isEmpty
        | .optional => false
        | .none => cluster_consumes_next specs cs
      | Option.none => cluster_consumes_next specs cs
    else cluster_consumes_next specs cs

/-- Whether a long-option token makes the parser consume the next
whole token as its value (parser.rs lines 49-64: resolved, required
value policy, no `=` in the token). -/
def long_consumes_next (specs : OptSpecs) (opt : String) : Bool :=
  let name := get_long_option_name opt
  if is_valid_long_option_name name then
    match long_opt_match specs name with
    | some spec =>
      match spec.value_type with
      | .required => !(is_long_option_equal_sign opt)
      | _ => false
    | Option.none => false
  else false

/-- The fate of each input token, in input order, mirroring the branch
structure of `parse_main` with the argument-count limit never reached. -/
def token_fates (specs : OptSpecs) : List String → List Fate
  | [] => []
  | opt :: rest =>
    if is_option_terminator opt then Fate.terminator :: rest.map (fun _ => Fate.other)
    else if is_long_option_prefix opt then
      if long_consumes_next specs opt then
        match rest with
        | _ :: rest2 => Fate.longOpt :: Fate.value :: token_fates specs rest2
        | [] => [Fate.longOpt]
      else Fate.longOpt :: token_fates specs rest
    else if is_short_option_prefix opt then
      if cluster_consumes_next specs (get_short_option_series opt).data then
        match rest with
        | _ :: rest2 => Fate.shortOpt :: Fate.value :: token_fates specs rest2
        | [] => [Fate.shortOpt]
      else Fate.shortOpt :: token_fates specs rest
    else if specs.is_flag .OptionsEverywhere then Fate.other :: token_fates specs rest
    else Fate.other :: rest.map (fun _ => Fate.other)

/-- What a fate obliges the parse result `r` to contain for the token.
A `terminator` token is consumed without a trace; an `other` token is
in `other`; a `value` token is some recorded option's value; a long
option token leaves its extracted name as a recorded option's name or
as an unknown entry (possibly in the `name=` form); every character of
a short-option cluster is a recorded option's name, an unknown entry,
or part of a recorded option's inline value. -/
def FateOK (r : Args) (tok : String) : Fate → Prop
  | .terminator => tok = OPTION_TERMINATOR
  | .other => tok ∈ r.other
  | .value => ∃ o ∈ r.options, o.value = some tok
  | .longOpt =>
      (∃ o ∈ r.options, o.name = get_long_option_name tok) ∨
      get_long_option_name tok ∈ r.unknown ∨
      get_long_option_name tok ++ "=" ∈ r.unknown
  | .shortOpt =>
      ∀ c ∈ (get_short_option_series tok).data,
        (∃ o ∈ r.options, o.name = String.mk [c]) ∨
        String.mk [c] ∈ r.unknown ∨
        (∃ o ∈ r.options, ∃ v, o.value = some v ∧ c ∈ v.data)

/-- `parse` restarted from an arbitrary mid-parse state: the main loop
continued on `args` with counter `count` and accumulator `parsed`,
followed by the drain loop.  `parse specs args = parse_from specs args
0 Args.new`. -/
def parse_from (specs : OptSpecs) (args : List String) (count : Nat) (parsed : Args) : Args :=
  match parse_main specs args count parsed with
  | (rest, c, p) => parse_drain specs rest c p

/-- The parse state only grows: recorded options, unknowns and other
arguments are append-only, and the no-duplicates invariant of
`unknown` is preserved. -/
def Grows (a b : Args) : Prop :=
  a.options <+: b.options ∧ a.unknown <+: b.unknown ∧ a.other <+: b.other ∧
    (a.unknown.Nodup → b.unknown.Nodup)

/-! ## Per-token recording events

To state the output-shape invariants (occurrence order, no
deduplication of `options`, first-occurrence deduplication of
`unknown`), the recordings of the loop body are restated state-free:
which option entries and which unknown names one token produces, in
encounter order, before any interaction with the accumulated result.
`cluster_step` and `token_step` mirror `parse_short_cluster` and
`handle_token` branch for branch, and `parse_events` mirrors
`parse_main` in the regime where the argument-count limit never
intervenes. -/

/-- The recordings of one short-option cluster scan: the option
entries pushed, the unknown names recorded (in encounter order, with
duplicates), and the pending required-value option. -/
def cluster_step (specs : OptSpecs) : List Char → List Opt × List String × Option (String × String)
  | [] => ([], [], Option.none)
  | c :: cs =>
    let name := String.mk [c]
    if is_valid_short_option_name name then
      match specs.get_short_option_match name with
      | some spec =>
        match spec.value_type with
        | .required =>
          let chars := String.mk cs
          if 0 < chars.data.length then ([⟨spec.id, name, true, some chars⟩], [], Option.none)
          else ([], [], some (spec.id, name))
        | .optional =>
          let chars := String.mk cs
          ([⟨spec.id, name, false, if 0 < chars.data.length then some chars else Option.none⟩],
           [], Option.none)
        | .none =>
          (⟨spec.id, name, false, Option.none⟩ :: (cluster_step specs cs).1,
           (cluster_step specs cs).2.1, (cluster_step specs cs).2.2)
      | Option.none =>
        ((cluster_step specs cs).1, name :: (cluster_step specs cs).2.1,
         (cluster_step specs cs).2.2)
    else
      ((cluster_step specs cs).1, name :: (cluster_step specs cs).2.1,
       (cluster_step specs cs).2.2)

/-- The recordings of one main-loop iteration: option entries, unknown
names, the pending required-value option, and whether the loop stops
after this token. -/
def token_step (specs : OptSpecs) (opt : String) :
    List Opt × List String × Option (String × String) × Bool :=
  if is_option_terminator opt then ([], [], Option.none, true)
  else if is_long_option_prefix opt then
    let name := get_long_option_name opt
    if is_valid_long_option_name name then
      match long_opt_match specs name with
      | some spec =>
        match spec.value_type with
        | .required =>
          if is_long_option_equal_sign opt then
            ([⟨spec.id, name, true, some (get_long_option_equal_value opt)⟩], [],
             Option.none, false)
          else ([], [], some (spec.id, name), false)
        | .optional =>
          ([⟨spec.id, name, false,
             if is_long_option_equal_sign opt then
               some (get_long_option_equal_value opt) else Option.none⟩], [],
           Option.none, false)
        | .none =>
          if is_long_option_equal_sign opt then ([], [name ++ "="], Option.none, false)
          else ([⟨spec.id, name, false, Option.none⟩], [], Option.none, false)
      | Option.none => ([], [name], Option.none, false)
    else ([], [name], Option.none, false)
  else if is_short_option_prefix opt then
    ((cluster_step specs (get_short_option_series opt).data).1,
     (cluster_step specs (get_short_option_series opt).data).2.1,
     (cluster_step specs (get_short_option_series opt).data).2.2, false)
  else ([], [], Option.none, if specs.is_flag .OptionsEverywhere then false else true)

/-- Record one unknown name into a bare list: append unless already
present (the deduplication pattern of parser.rs lines 79-82, 98-100
and 168-170, lifted off the `Args` structure). -/
def record_unknown (u : List String) (n : String) : List String :=
  if u.contains n then u else u ++ [n]

/-- Record a stream of unknown names in order: the result keeps
exactly the first occurrence of each name. -/
def record_unknowns (u : List String) (ns : List String) : List String :=
  ns.foldl record_unknown u

/-- All recordings of a parse run, in input order, in the regime where
the argument-count limit never intervenes: the option entries exactly
as pushed (no deduplication) and the unknown names as encountered
(with duplicates, before deduplication). -/
def parse_events (specs : OptSpecs) : List String → List Opt × List String
  | [] => ([], [])
  | opt :: rest =>
    match token_step specs opt with
    | (os, us, some pend, _) =>
      match rest with
      | v :: rest2 =>
        (os ++ [⟨pend.1, pend.2, true, some v⟩] ++ (parse_events specs rest2).1,
         us ++ (parse_events specs rest2).2)
      | [] => (os ++ [⟨pend.1, pend.2, true, Option.none⟩], us)
    | (os, us, Option.none, true) => (os, us)
    | (os, us, Option.none, false) =>
      (os ++ (parse_events specs rest).1, us ++ (parse_events specs rest).2)

/-- The specification's reading of the `unknown` field ("each unknown
name is recorded once, at its first occurrence"), as a second
definition following the spec's words: keep the first occurrence of
each name of a stream, in encounter order, by taking the head and
dropping its later duplicates.  It is compared below with the
recording fold of the source (`record_unknowns`). -/
def spec_first_occurrences : List String → List String
  | [] => []
  | a :: ns => a :: spec_first_occurrences (ns.filter (fun x => x != a))
termination_by l => l.length
decreasing_by
  simp only [List.length_cons]
  exact Nat.lt_succ_of_le (List.length_filter_le _ _)

/-! ## Basic lemmas about the state-updating helpers -/

theorem Grows.rfl (a : Args) : Grows a a :=
  ⟨List.prefix_rfl, List.prefix_rfl, List.prefix_rfl, fun h => h⟩

theorem Grows.trans {a b c : Args} (h1 : Grows a b) (h2 : Grows b c) : Grows a c :=
  ⟨h1.1.trans h2.1, h1.2.1.trans h2.2.1, h1.2.2.1.trans h2.2.2.1,
   fun h => h2.2.2.2 (h1.2.2.2 h)⟩

theorem push_unknown_grows (parsed : Args) (n : String) : Grows parsed (push_unknown parsed n) := by
  unfold push_unknown
  split
  · exact Grows.rfl parsed
  · next hc =>
    refine ⟨List.prefix_rfl, List.prefix_append _ _, List.prefix_rfl, fun h => ?_⟩
    have hn : n ∉ parsed.unknown := by simpa using hc
    simp [List.nodup_append, h, hn]

theorem push_unknown_mem (parsed : Args) (n : String) : n ∈ (push_unknown parsed n).unknown := by
  unfold push_unknown
  split
  · next hc => simpa using hc
  · simp

theorem push_unknown_options (parsed : Args) (n : String) :
    (push_unknown parsed n).options = parsed.options := by
  unfold push_unknown; split <;> rfl

theorem push_unknown_other (parsed : Args) (n : String) :
    (push_unknown parsed n).other = parsed.other := by
  unfold push_unknown; split <;> rfl

theorem push_unknown_flag (parsed : Args) (n : String) :
    (push_unknown parsed n).arg_limit_exceeded = parsed.arg_limit_exceeded := by
  unfold push_unknown; split <;> rfl

theorem push_unknown_unknown (parsed : Args) (n : String) :
    (push_unknown parsed n).unknown = record_unknown parsed.unknown n := by
  unfold push_unknown record_unknown; split <;> rfl

theorem push_option_grows (parsed : Args) (o : Opt) : Grows parsed (push_option parsed o) :=
  ⟨List.prefix_append _ _, List.prefix_rfl, List.prefix_rfl, fun h => h⟩

theorem push_option_mem (parsed : Args) (o : Opt) : o ∈ (push_option parsed o).options := by
  simp [push_option]

theorem push_option_other (parsed : Args) (o : Opt) :
    (push_option parsed o).other = parsed.other := rfl

theorem push_other_grows (parsed : Args) (v : String) :
    Grows parsed { parsed with other := parsed.other ++ [v] } :=
  ⟨List.prefix_rfl, List.prefix_rfl, List.prefix_append _ _, fun h => h⟩

theorem is_under_limit_true {specs : OptSpecs} {c : Nat} (h : c < specs.limit) :
    specs.is_under_limit c = true := by
  simp [OptSpecs.is_under_limit, h]

/-! ## Lemmas about the short-cluster scan -/

theorem parse_short_cluster_grows (specs : OptSpecs) :
    ∀ (cs : List Char) (parsed : Args),
      Grows parsed (parse_short_cluster specs cs parsed).1 := by
  intro cs
  induction cs with
  | nil => intro parsed; exact Grows.rfl parsed
  | cons c cs ih =>
    intro parsed
    simp only [parse_short_cluster]
    split
    · cases hm : specs.get_short_option_match (String.mk [c]) with
      | none =>
        simpa [hm] using (push_unknown_grows parsed (String.mk [c])).trans
          (ih (push_unknown parsed (String.mk [c])))
      | some spec =>
        cases hv : spec.value_type with
        | required =>
          simp only [hm, hv]
          split
          · exact push_option_grows ..
          · exact Grows.rfl parsed
        | optional =>
          simp only [hm, hv]
          exact push_option_grows ..
        | none =>
          simpa [hm, hv] using (push_option_grows parsed _).trans
            (ih (push_option parsed ⟨spec.id, String.mk [c], false, Option.none⟩))
    · exact (push_unknown_grows parsed (String.mk [c])).trans
        (ih (push_unknown parsed (String.mk [c])))

theorem parse_short_cluster_other (specs : OptSpecs) :
    ∀ (cs : List Char) (parsed : Args),
      (parse_short_cluster specs cs parsed).1.other = parsed.other := by
  intro cs
  induction cs with
  | nil => intro parsed; rfl
  | cons c cs ih =>
    intro parsed
    simp only [parse_short_cluster]
    split
    · cases hm : specs.get_short_option_match (String.mk [c]) with
      | none => simp [hm, ih, push_unknown_other]
      | some spec =>
        cases hv : spec.value_type with
        | required =>
          simp only [hm, hv]
          split <;> rfl
        | optional => simp [hm, hv, push_option_other]
        | none => simp [hm, hv, ih, push_option_other]
    · simp [ih, push_unknown_other]

/-- Every character of a scanned cluster is accounted for: it names a
recorded option, it is an unknown entry, it is part of a recorded
inline value, or it is the pending required-value option handed back
to the caller. -/
theorem parse_short_cluster_accounts (specs : OptSpecs) :
    ∀ (cs : List Char) (parsed : Args) (c : Char), c ∈ cs →
      (∃ o ∈ (parse_short_cluster specs cs parsed).1.options, o.name = String.mk [c]) ∨
      String.mk [c] ∈ (parse_short_cluster specs cs parsed).1.unknown ∨
      (∃ o ∈ (parse_short_cluster specs cs parsed).1.options,
        ∃ v, o.value = some v ∧ c ∈ v.data) ∨
      (∃ id, (parse_short_cluster specs cs parsed).2 = some (id, String.mk [c])) := by
  intro cs
  induction cs with
  | nil => intro parsed c hc; cases hc
  | cons c0 cs ih =>
    intro parsed c hc
    simp only [parse_short_cluster]
    rcases List.mem_cons.mp hc with hc0 | hcs
    · subst hc0
      split
      · cases hm : specs.get_short_option_match (String.mk [c]) with
        | none =>
          refine Or.inr (Or.inl ?_)
          simp only [hm]
          exact ((parse_short_cluster_grows specs cs _).2.1).subset (push_unknown_mem parsed _)
        | some spec =>
          cases hv : spec.value_type with
          | required =>
            simp only [hm, hv]
            split
            · exact Or.inl ⟨⟨spec.id, String.mk [c], true, some (String.mk cs)⟩,
                push_option_mem .., rfl⟩
            · exact Or.inr (Or.inr (Or.inr ⟨spec.id, rfl⟩))
          | optional =>
            simp only [hm, hv]
            exact Or.inl ⟨⟨spec.id, String.mk [c], false,
              if 0 < (String.mk cs).data.length then some (String.mk cs) else Option.none⟩,
              push_option_mem .., rfl⟩
          | none =>
            simp only [hm, hv]
            exact Or.inl ⟨⟨spec.id, String.mk [c], false, Option.none⟩,
              ((parse_short_cluster_grows specs cs _).1).subset (push_option_mem parsed _), rfl⟩
      · refine Or.inr (Or.inl ?_)
        exact ((parse_short_cluster_grows specs cs _).2.1).subset (push_unknown_mem parsed _)
    · have hne : 0 < (String.mk cs).data.length := by
        cases cs with
        | nil => cases hcs
        | cons x xs => simp [String.mk]
      split
      · cases hm : specs.get_short_option_match (String.mk [c0]) with
        | none => simpa [hm] using ih (push_unknown parsed (String.mk [c0])) c hcs
        | some spec =>
          cases hv : spec.value_type with
          | required =>
            simp only [hm, hv]
            exact Or.inr (Or.inr (Or.inl
              ⟨⟨spec.id, String.mk [c0], true, some (String.mk cs)⟩,
                push_option_mem .., String.mk cs, rfl, hcs⟩))
          | optional =>
            simp only [hm, hv]
            exact Or.inr (Or.inr (Or.inl
              ⟨⟨spec.id, String.mk [c0], false, some (String.mk cs)⟩,
                push_option_mem .., String.mk cs, rfl, hcs⟩))
          | none =>
            simpa [hm, hv] using
              ih (push_option parsed ⟨spec.id, String.mk [c0], false, Option.none⟩) c hcs
      · simpa using ih (push_unknown parsed (String.mk [c0])) c hcs

/-! ## Step equations

Each lemma rewrites one branch of `handle_token`, or one iteration of
`parse_main`, under the branch conditions of parser.rs, for use in the
inductions below. -/

section StepEquations

variable {specs : OptSpecs} {opt : String} {rest : List String} {count : Nat} {parsed : Args}

theorem ht_terminator (ht : is_option_terminator opt = true) :
    handle_token specs opt parsed = (parsed, Option.none, true) := by
  simp [handle_token, ht]

theorem ht_long_invalid (ht : is_option_terminator opt = false)
    (hlp : is_long_option_prefix opt = true)
    (hvn : is_valid_long_option_name (get_long_option_name opt) = false) :
    handle_token specs opt parsed =
      (push_unknown parsed (get_long_option_name opt), Option.none, false) := by
  simp [handle_token, ht, hlp, hvn]

theorem ht_long_nomatch (ht : is_option_terminator opt = false)
    (hlp : is_long_option_prefix opt = true)
    (hvn : is_valid_long_option_name (get_long_option_name opt) = true)
    (hm : long_opt_match specs (get_long_option_name opt) = Option.none) :
    handle_token specs opt parsed =
      (push_unknown parsed (get_long_option_name opt), Option.none, false) := by
  simp [handle_token, ht, hlp, hvn, hm]

theorem ht_long_required_eq {spec : OptSpec} (ht : is_option_terminator opt = false)
    (hlp : is_long_option_prefix opt = true)
    (hvn : is_valid_long_option_name (get_long_option_name opt) = true)
    (hm : long_opt_match specs (get_long_option_name opt) = some spec)
    (hvt : spec.value_type = .required) (hes : is_long_option_equal_sign opt = true) :
    handle_token specs opt parsed =
      (push_option parsed ⟨spec.id, get_long_option_name opt, true,
        some (get_long_option_equal_value opt)⟩, Option.none, false) := by
  simp [handle_token, ht, hlp, hvn, hm, hvt, hes]

theorem ht_long_required_pending {spec : OptSpec} (ht : is_option_terminator opt = false)
    (hlp : is_long_option_prefix opt = true)
    (hvn : is_valid_long_option_name (get_long_option_name opt) = true)
    (hm : long_opt_match specs (get_long_option_name opt) = some spec)
    (hvt : spec.value_type = .required) (hes : is_long_option_equal_sign opt = false) :
    handle_token specs opt parsed =
      (parsed, some (spec.id, get_long_option_name opt), false) := by
  simp [handle_token, ht, hlp, hvn, hm, hvt, hes]

theorem ht_long_optional {spec : OptSpec} (ht : is_option_terminator opt = false)
    (hlp : is_long_option_prefix opt = true)
    (hvn : is_valid_long_option_name (get_long_option_name opt) = true)
    (hm : long_opt_match specs (get_long_option_name opt) = some spec)
    (hvt : spec.value_type = .optional) :
    handle_token specs opt parsed =
      (push_option parsed ⟨spec.id, get_long_option_name opt, false,
        if is_long_option_equal_sign opt then
          some (get_long_option_equal_value opt) else Option.none⟩, Option.none, false) := by
  simp [handle_token, ht, hlp, hvn, hm, hvt]

theorem ht_long_none_eq {spec : OptSpec} (ht : is_option_terminator opt = false)
    (hlp : is_long_option_prefix opt = true)
    (hvn : is_valid_long_option_name (get_long_option_name opt) = true)
    (hm : long_opt_match specs (get_long_option_name opt) = some spec)
    (hvt : spec.value_type = .none) (hes : is_long_option_equal_sign opt = true) :
    handle_token specs opt parsed =
      (push_unknown parsed (get_long_option_name opt ++ "="), Option.none, false) := by
  simp [handle_token, ht, hlp, hvn, hm, hvt, hes]

theorem ht_long_none {spec : OptSpec} (ht : is_option_terminator opt = false)
    (hlp : is_long_option_prefix opt = true)
    (hvn : is_valid_long_option_name (get_long_option_name opt) = true)
    (hm : long_opt_match specs (get_long_option_name opt) = some spec)
    (hvt : spec.value_type = .none) (hes : is_long_option_equal_sign opt = false) :
    handle_token specs opt parsed =
      (push_option parsed ⟨spec.id, get_long_option_name opt, false, Option.none⟩,
       Option.none, false) := by
  simp [handle_token, ht, hlp, hvn, hm, hvt, hes]

theorem ht_short {parsed2 : Args} {pending : Option (String × String)}
    (ht : is_option_terminator opt = false) (hlp : is_long_option_prefix opt = false)
    (hsp : is_short_option_prefix opt = true)
    (hcl : parse_short_cluster specs (get_short_option_series opt).data parsed =
      (parsed2, pending)) :
    handle_token specs opt parsed = (parsed2, pending, false) := by
  simp [handle_token, ht, hlp, hsp, hcl]

theorem ht_other_everywhere (ht : is_option_terminator opt = false)
    (hlp : is_long_option_prefix opt = false) (hsp : is_short_option_prefix opt = false)
    (hoe : specs.is_flag .OptionsEverywhere = true) :
    handle_token specs opt parsed =
      ({ parsed with other := parsed.other ++ [opt] }, Option.none, false) := by
  simp [handle_token, ht, hlp, hsp, hoe]

theorem ht_other_stop (ht : is_option_terminator opt = false)
    (hlp : is_long_option_prefix opt = false) (hsp : is_short_option_prefix opt = false)
    (hoe : specs.is_flag .OptionsEverywhere = false) :
    handle_token specs opt parsed =
      ({ parsed with other := parsed.other ++ [opt] }, Option.none, true) := by
  simp [handle_token, ht, hlp, hsp, hoe]

theorem main_nil : parse_main specs [] count parsed = ([], count, parsed) := by
  simp [parse_main]

theorem main_limit (hu : specs.is_under_limit count = false) :
    parse_main specs (opt :: rest) count parsed = (opt :: rest, count, parsed) := by
  simp [parse_main, hu]

theorem main_stop {parsed2 : Args} (hu : specs.is_under_limit count = true)
    (hh : handle_token specs opt parsed = (parsed2, Option.none, true)) :
    parse_main specs (opt :: rest) count parsed = (rest, count + 1, parsed2) := by
  simp [parse_main, hu, hh]

theorem main_go {parsed2 : Args} (hu : specs.is_under_limit count = true)
    (hh : handle_token specs opt parsed = (parsed2, Option.none, false)) :
    parse_main specs (opt :: rest) count parsed = parse_main specs rest (count + 1) parsed2 := by
  simp [parse_main, hu, hh]

theorem main_pending_next {parsed2 : Args} {id nm v : String} {rest2 : List String} {b : Bool}
    (hu : specs.is_under_limit count = true)
    (hh : handle_token specs opt parsed = (parsed2, some (id, nm), b))
    (hu2 : specs.is_under_limit (count + 1) = true) :
    parse_main specs (opt :: v :: rest2) count parsed =
      parse_main specs rest2 (count + 1 + 1) (push_option parsed2 ⟨id, nm, true, some v⟩) := by
  simp [parse_main, hu, hh, hu2]

theorem main_pending_empty {parsed2 : Args} {id nm : String} {b : Bool}
    (hu : specs.is_under_limit count = true)
    (hh : handle_token specs opt parsed = (parsed2, some (id, nm), b))
    (hu2 : specs.is_under_limit (count + 1) = true) :
    parse_main specs [opt] count parsed =
      ([], count + 1, push_option parsed2 ⟨id, nm, true, Option.none⟩) := by
  simp [parse_main, hu, hh, hu2]

theorem main_pending_over {parsed2 : Args} {id nm : String} {b : Bool}
    (hu : specs.is_under_limit count = true)
    (hh : handle_token specs opt parsed = (parsed2, some (id, nm), b))
    (hu2 : specs.is_under_limit (count + 1) = false) :
    parse_main specs (opt :: rest) count parsed =
      parse_main specs rest (count + 1) (push_option parsed2 ⟨id, nm, true, Option.none⟩) := by
  simp [parse_main, hu, hh, hu2]

end StepEquations

/-- State effects of one loop-body iteration: the state only grows,
and `other` gains at most the token itself. -/
theorem handle_token_state (specs : OptSpecs) (opt : String) (parsed : Args) :
    Grows parsed (handle_token specs opt parsed).1 ∧
    ((handle_token specs opt parsed).1.other = parsed.other ∨
     (handle_token specs opt parsed).1.other = parsed.other ++ [opt]) := by
  cases ht : is_option_terminator opt with
  | true => rw [ht_terminator ht]; exact ⟨Grows.rfl parsed, Or.inl rfl⟩
  | false =>
  cases hlp : is_long_option_prefix opt with
  | true =>
    cases hvn : is_valid_long_option_name (get_long_option_name opt) with
    | false =>
      rw [ht_long_invalid ht hlp hvn]
      exact ⟨push_unknown_grows .., Or.inl (push_unknown_other ..)⟩
    | true =>
      cases hm : long_opt_match specs (get_long_option_name opt) with
      | none =>
        rw [ht_long_nomatch ht hlp hvn hm]
        exact ⟨push_unknown_grows .., Or.inl (push_unknown_other ..)⟩
      | some spec =>
        cases hvt : spec.value_type with
        | required =>
          cases hes : is_long_option_equal_sign opt with
          | true =>
            rw [ht_long_required_eq ht hlp hvn hm hvt hes]
            exact ⟨push_option_grows .., Or.inl (push_option_other ..)⟩
          | false =>
            rw [ht_long_required_pending ht hlp hvn hm hvt hes]
            exact ⟨Grows.rfl parsed, Or.inl rfl⟩
        | optional =>
          rw [ht_long_optional ht hlp hvn hm hvt]
          exact ⟨push_option_grows .., Or.inl (push_option_other ..)⟩
        | none =>
          cases hes : is_long_option_equal_sign opt with
          | true =>
            rw [ht_long_none_eq ht hlp hvn hm hvt hes]
            exact ⟨push_unknown_grows .., Or.inl (push_unknown_other ..)⟩
          | false =>
            rw [ht_long_none ht hlp hvn hm hvt hes]
            exact ⟨push_option_grows .., Or.inl (push_option_other ..)⟩
  | false =>
  cases hsp : is_short_option_prefix opt with
  | true =>
    cases hcl : parse_short_cluster specs (get_short_option_series opt).data parsed with
    | mk parsed2 pending =>
      rw [ht_short ht hlp hsp hcl]
      have hg := parse_short_cluster_grows specs (get_short_option_series opt).data parsed
      have ho := parse_short_cluster_other specs (get_short_option_series opt).data parsed
      rw [hcl] at hg ho
      exact ⟨hg, Or.inl ho⟩
  | false =>
  cases hoe : specs.is_flag .OptionsEverywhere with
  | true =>
    rw [ht_other_everywhere ht hlp hsp hoe]
    exact ⟨push_other_grows .., Or.inr rfl⟩
  | false =>
    rw [ht_other_stop ht hlp hsp hoe]
    exact ⟨push_other_grows .., Or.inr rfl⟩

/-- Full characterization of the drain loop (parser.rs 181-196): the
remaining tokens are appended to `other` up to the limit, and the
`arg_limit_exceeded` flag is raised exactly when tokens are cut off. -/
theorem parse_drain_eq (specs : OptSpecs) :
    ∀ (rest : List String) (count : Nat) (parsed : Args),
      parse_drain specs rest count parsed =
        { parsed with
          other := parsed.other ++ rest.take (specs.limit - count),
          arg_limit_exceeded :=
            parsed.arg_limit_exceeded || decide (specs.limit - count < rest.length) } := by
  intro rest
  induction rest with
  | nil => intro count parsed; simp [parse_drain]
  | cons v rs ih =>
    intro count parsed
    by_cases h : count < specs.limit
    · have hu : specs.is_under_limit count = true := is_under_limit_true h
      have hk : specs.limit - count = (specs.limit - (count + 1)) + 1 := by omega
      have hd : decide (specs.limit - count < (v :: rs).length) =
          decide (specs.limit - (count + 1) < rs.length) := by
        simp only [decide_eq_decide, List.length_cons]; omega
      rw [hd] at *
      simp [parse_drain, hu, ih, hk, List.take_succ_cons]
    · have hu : specs.is_under_limit count = false := by
        simp [OptSpecs.is_under_limit]; omega
      have hk : specs.limit - count = 0 := by omega
      simp [parse_drain, hu, hk]

/-- The cluster scan reports a pending next-token value exactly when
`cluster_consumes_next` predicts it, independently of the accumulated
state. -/
theorem parse_short_cluster_pending (specs : OptSpecs) :
    ∀ (cs : List Char) (parsed : Args),
      (parse_short_cluster specs cs parsed).2.isSome = cluster_consumes_next specs cs := by
  intro cs
  induction cs with
  | nil => intro parsed; rfl
  | cons c cs ih =>
    intro parsed
    simp only [parse_short_cluster, cluster_consumes_next]
    split
    · cases hm : specs.get_short_option_match (String.mk [c]) with
      | none => simp [hm, ih]
      | some spec =>
        cases hv : spec.value_type with
        | required =>
          simp only [hm, hv]
          split
          · next h =>
            have : ¬ cs.isEmpty := by
              cases cs with
              | nil => simp [String.mk] at h
              | cons x xs => simp
            simp [this]
          · next h =>
            have : cs.isEmpty := by
              cases cs with
              | nil => simp
              | cons x xs => simp [String.mk] at h
            simp [this]
        | optional => simp [hm, hv]
        | none => simp [hm, hv, ih]
    · simp [ih]

/-! ## Cumulative state effects of the main loop -/

/-- The main loop only grows the state; `other` gains exactly a list
`δ` of tokens drawn in order from the consumed input, and `δ` together
with the unconsumed remainder is a sublist of the input. -/
theorem parse_main_spec (specs : OptSpecs) :
    ∀ (n : Nat) (args : List String), args.length ≤ n → ∀ (count : Nat) (parsed : Args),
      Grows parsed (parse_main specs args count parsed).2.2 ∧
      ∃ δ, (parse_main specs args count parsed).2.2.other = parsed.other ++ δ ∧
        (δ ++ (parse_main specs args count parsed).1).Sublist args := by
  intro n
  induction n with
  | zero =>
    intro args hlen count parsed
    obtain rfl : args = [] := List.length_eq_zero.mp (Nat.le_zero.mp hlen)
    rw [main_nil]
    exact ⟨Grows.rfl parsed, [], by simp, by simp⟩
  | succ n ih =>
    intro args hlen count parsed
    cases args with
    | nil =>
      rw [main_nil]
      exact ⟨Grows.rfl parsed, [], by simp, by simp⟩
    | cons opt rest =>
      have hlen' : rest.length ≤ n := by simp at hlen; omega
      cases hu : specs.is_under_limit count with
      | false =>
        rw [main_limit hu]
        exact ⟨Grows.rfl parsed, [], by simp, by simp⟩
      | true =>
        obtain ⟨hg2, hother2⟩ := handle_token_state specs opt parsed
        cases hh : handle_token specs opt parsed with
        | mk parsed2 pb =>
          obtain ⟨pend, stop⟩ := pb
          rw [hh] at hg2 hother2
          dsimp only at hg2 hother2
          cases pend with
          | none =>
            cases stop with
            | true =>
              rw [main_stop hu hh]
              refine ⟨hg2, ?_⟩
              rcases hother2 with h | h
              · exact ⟨[], by simpa using h, by simp [List.sublist_cons_self opt rest]⟩
              · exact ⟨[opt], by simpa using h, by simp⟩
            | false =>
              rw [main_go hu hh]
              obtain ⟨G, δ, hδ, hsub⟩ := ih rest hlen' (count + 1) parsed2
              refine ⟨hg2.trans G, ?_⟩
              rcases hother2 with h | h
              · exact ⟨δ, by rw [hδ, h], hsub.trans (List.sublist_cons_self opt rest)⟩
              · exact ⟨opt :: δ, by rw [hδ, h]; simp, hsub.cons₂ opt⟩
          | some pend =>
            obtain ⟨pid, pnm⟩ := pend
            cases hu2 : specs.is_under_limit (count + 1) with
            | true =>
              cases rest with
              | nil =>
                rw [main_pending_empty hu hh hu2]
                refine ⟨hg2.trans (push_option_grows ..), ?_⟩
                rcases hother2 with h | h
                · exact ⟨[], by simp [push_option, h], by simp⟩
                · exact ⟨[opt], by simp [push_option, h], by simp⟩
              | cons v rest2 =>
                rw [main_pending_next hu hh hu2]
                obtain ⟨G, δ, hδ, hsub⟩ :=
                  ih rest2 (by simp at hlen'; omega) (count + 1 + 1)
                    (push_option parsed2 ⟨pid, pnm, true, some v⟩)
                refine ⟨(hg2.trans (push_option_grows ..)).trans G, ?_⟩
                rcases hother2 with h | h
                · exact ⟨δ, by rw [hδ]; simp [push_option, h],
                    (hsub.trans (List.sublist_cons_self v rest2)).trans (List.sublist_cons_self opt _)⟩
                · exact ⟨opt :: δ, by rw [hδ]; simp [push_option, h],
                    (hsub.trans (List.sublist_cons_self v rest2)).cons₂ opt⟩
            | false =>
              rw [main_pending_over hu hh hu2]
              obtain ⟨G, δ, hδ, hsub⟩ :=
                ih rest hlen' (count + 1) (push_option parsed2 ⟨pid, pnm, true, Option.none⟩)
              refine ⟨(hg2.trans (push_option_grows ..)).trans G, ?_⟩
              rcases hother2 with h | h
              · exact ⟨δ, by rw [hδ]; simp [push_option, h],
                  hsub.trans (List.sublist_cons_self opt rest)⟩
              · exact ⟨opt :: δ, by rw [hδ]; simp [push_option, h], hsub.cons₂ opt⟩

theorem parse_main_grows (specs : OptSpecs) (args : List String) (count : Nat) (parsed : Args) :
    Grows parsed (parse_main specs args count parsed).2.2 :=
  (parse_main_spec specs args.length args le_rfl count parsed).1

theorem parse_drain_grows (specs : OptSpecs) (rest : List String) (count : Nat) (parsed : Args) :
    Grows parsed (parse_drain specs rest count parsed) := by
  rw [parse_drain_eq]
  exact ⟨List.prefix_rfl, List.prefix_rfl, List.prefix_append .., fun h => h⟩

theorem parse_from_grows (specs : OptSpecs) (args : List String) (count : Nat) (parsed : Args) :
    Grows parsed (parse_from specs args count parsed) := by
  have hg := parse_main_grows specs args count parsed
  unfold parse_from
  cases hm : parse_main specs args count parsed with
  | mk rest cp =>
    cases cp with
    | mk c p =>
      rw [hm] at hg
      exact hg.trans (parse_drain_grows specs rest c p)

theorem parse_eq_parse_from (specs : OptSpecs) (args : List String) :
    parse specs args = parse_from specs args 0 Args.new := rfl

/-- The result's `unknown` field never holds two equal strings. -/
theorem parse_unknown_nodup (specs : OptSpecs) (args : List String) :
    (parse specs args).unknown.Nodup := by
  rw [parse_eq_parse_from]
  exact (parse_from_grows specs args 0 Args.new).2.2.2 List.nodup_nil

/-- The result's `other` field is the input's positional tokens in
input order: a sublist of the input. -/
theorem parse_other_sublist (specs : OptSpecs) (args : List String) :
    (parse specs args).other.Sublist args := by
  obtain ⟨_, δ, hδ, hsub⟩ := parse_main_spec specs args.length args le_rfl 0 Args.new
  cases hm : parse_main specs args 0 Args.new with
  | mk rest cp =>
    cases cp with
    | mk c p =>
      rw [hm] at hδ hsub
      have hp : parse specs args = parse_drain specs rest c p := by
        unfold parse; rw [hm]
      rw [hp, parse_drain_eq]
      have : p.other ++ rest.take (specs.limit - c) = δ ++ rest.take (specs.limit - c) := by
        rw [hδ]; rfl
      simp only [this]
      exact ((List.take_sublist _ rest).append_left δ).trans hsub

/-! ## The accounting property -/

theorem grows_opt_mem {a b : Args} (g : Grows a b) {o : Opt} (h : o ∈ a.options) :
    o ∈ b.options := g.1.subset h

theorem grows_unknown_mem {a b : Args} (g : Grows a b) {x : String} (h : x ∈ a.unknown) :
    x ∈ b.unknown := g.2.1.subset h

theorem grows_other_mem {a b : Args} (g : Grows a b) {x : String} (h : x ∈ a.other) :
    x ∈ b.other := g.2.2.1.subset h

/-- When the limit admits all remaining tokens, the drain loop appends
them all. -/
theorem parse_drain_all {specs : OptSpecs} {rest : List String} {count : Nat} (parsed : Args)
    (h : count + rest.length ≤ specs.limit) :
    parse_drain specs rest count parsed = { parsed with other := parsed.other ++ rest } := by
  rw [parse_drain_eq]
  have h1 : rest.take (specs.limit - count) = rest := List.take_of_length_le (by omega)
  have h2 : decide (specs.limit - count < rest.length) = false := by
    simp only [decide_eq_false_iff_not]; omega
  rw [h1, h2]
  simp

theorem forall₂_fate_other (r : Args) (rest : List String) (h : ∀ x ∈ rest, x ∈ r.other) :
    List.Forall₂ (FateOK r) rest (rest.map (fun _ => Fate.other)) := by
  induction rest with
  | nil => exact List.Forall₂.nil
  | cons x xs ih =>
    exact List.Forall₂.cons (h x (List.mem_cons_self x xs))
      (ih fun y hy => h y (List.mem_cons_of_mem x hy))

theorem parse_from_go {specs : OptSpecs} {opt : String} {rest : List String} {count : Nat}
    {parsed parsed2 : Args} (hu : specs.is_under_limit count = true)
    (hh : handle_token specs opt parsed = (parsed2, Option.none, false)) :
    parse_from specs (opt :: rest) count parsed = parse_from specs rest (count + 1) parsed2 := by
  unfold parse_from
  rw [main_go hu hh]

theorem parse_from_stop {specs : OptSpecs} {opt : String} {rest : List String} {count : Nat}
    {parsed parsed2 : Args} (hu : specs.is_under_limit count = true)
    (hh : handle_token specs opt parsed = (parsed2, Option.none, true)) :
    parse_from specs (opt :: rest) count parsed = parse_drain specs rest (count + 1) parsed2 := by
  unfold parse_from
  rw [main_stop hu hh]

theorem parse_from_pending_next {specs : OptSpecs} {opt v : String} {rest2 : List String}
    {count : Nat} {parsed parsed2 : Args} {id nm : String} {b : Bool}
    (hu : specs.is_under_limit count = true)
    (hh : handle_token specs opt parsed = (parsed2, some (id, nm), b))
    (hu2 : specs.is_under_limit (count + 1) = true) :
    parse_from specs (opt :: v :: rest2) count parsed =
      parse_from specs rest2 (count + 1 + 1) (push_option parsed2 ⟨id, nm, true, some v⟩) := by
  unfold parse_from
  rw [main_pending_next hu hh hu2]

theorem parse_from_pending_nil {specs : OptSpecs} {opt : String} {count : Nat}
    {parsed parsed2 : Args} {id nm : String} {b : Bool}
    (hu : specs.is_under_limit count = true)
    (hh : handle_token specs opt parsed = (parsed2, some (id, nm), b)) :
    parse_from specs [opt] count parsed =
      push_option parsed2 ⟨id, nm, true, Option.none⟩ := by
  unfold parse_from
  cases hu2 : specs.is_under_limit (count + 1) with
  | true => rw [main_pending_empty hu hh hu2]; simp [parse_drain]
  | false => rw [main_pending_over hu hh hu2, main_nil]; simp [parse_drain]

/-! Unfolding lemmas for `token_fates`. -/

section TokenFates

variable {specs : OptSpecs} {opt v : String} {rest rest2 : List String}

theorem token_fates_terminator (ht : is_option_terminator opt = true) :
    token_fates specs (opt :: rest) = Fate.terminator :: rest.map (fun _ => Fate.other) := by
  rw [token_fates.eq_def]; simp [ht]

theorem token_fates_long_go (ht : is_option_terminator opt = false)
    (hlp : is_long_option_prefix opt = true) (hc : long_consumes_next specs opt = false) :
    token_fates specs (opt :: rest) = Fate.longOpt :: token_fates specs rest := by
  rw [token_fates.eq_def]; simp [ht, hlp, hc]

theorem token_fates_long_next (ht : is_option_terminator opt = false)
    (hlp : is_long_option_prefix opt = true) (hc : long_consumes_next specs opt = true) :
    token_fates specs (opt :: v :: rest2) =
      Fate.longOpt :: Fate.value :: token_fates specs rest2 := by
  rw [token_fates.eq_def]; simp [ht, hlp, hc]

theorem token_fates_long_nil (ht : is_option_terminator opt = false)
    (hlp : is_long_option_prefix opt = true) (hc : long_consumes_next specs opt = true) :
    token_fates specs [opt] = [Fate.longOpt] := by
  rw [token_fates.eq_def]; simp [ht, hlp, hc]

theorem token_fates_short_go (ht : is_option_terminator opt = false)
    (hlp : is_long_option_prefix opt = false) (hsp : is_short_option_prefix opt = true)
    (hc : cluster_consumes_next specs (get_short_option_series opt).data = false) :
    token_fates specs (opt :: rest) = Fate.shortOpt :: token_fates specs rest := by
  rw [token_fates.eq_def]; simp [ht, hlp, hsp, hc]

theorem token_fates_short_next (ht : is_option_terminator opt = false)
    (hlp : is_long_option_prefix opt = false) (hsp : is_short_option_prefix opt = true)
    (hc : cluster_consumes_next specs (get_short_option_series opt).data = true) :
    token_fates specs (opt :: v :: rest2) =
      Fate.shortOpt :: Fate.value :: token_fates specs rest2 := by
  rw [token_fates.eq_def]; simp [ht, hlp, hsp, hc]

theorem token_fates_short_nil (ht : is_option_terminator opt = false)
    (hlp : is_long_option_prefix opt = false) (hsp : is_short_option_prefix opt = true)
    (hc : cluster_consumes_next specs (get_short_option_series opt).data = true) :
    token_fates specs [opt] = [Fate.shortOpt] := by
  rw [token_fates.eq_def]; simp [ht, hlp, hsp, hc]

theorem token_fates_other_go (ht : is_option_terminator opt = false)
    (hlp : is_long_option_prefix opt = false) (hsp : is_short_option_prefix opt = false)
    (hoe : specs.is_flag .OptionsEverywhere = true) :
    token_fates specs (opt :: rest) = Fate.other :: token_fates specs rest := by
  rw [token_fates.eq_def]; simp [ht, hlp, hsp, hoe]

theorem token_fates_other_stop (ht : is_option_terminator opt = false)
    (hlp : is_long_option_prefix opt = false) (hsp : is_short_option_prefix opt = false)
    (hoe : specs.is_flag .OptionsEverywhere = false) :
    token_fates specs (opt :: rest) = Fate.other :: rest.map (fun _ => Fate.other) := by
  rw [token_fates.eq_def]; simp [ht, hlp, hsp, hoe]

end TokenFates

/-- The accounting theorem for the main loop restarted anywhere: as
long as the argument-count limit admits the whole remaining input, each
remaining token satisfies the obligation of its assigned fate in the
final result. -/
theorem parse_from_accounts (specs : OptSpecs) :
    ∀ (n : Nat) (args : List String), args.length ≤ n → ∀ (count : Nat) (parsed : Args),
      count + args.length ≤ specs.limit →
      List.Forall₂ (FateOK (parse_from specs args count parsed)) args (token_fates specs args) := by
  intro n
  induction n with
  | zero =>
    intro args hlen count parsed _
    obtain rfl : args = [] := List.length_eq_zero.mp (Nat.le_zero.mp hlen)
    exact List.Forall₂.nil
  | succ n ih =>
    intro args hlen count parsed hlim
    cases args with
    | nil => exact List.Forall₂.nil
    | cons opt rest =>
      have hlen' : rest.length ≤ n := by simp at hlen; omega
      have hu : specs.is_under_limit count = true :=
        is_under_limit_true (by simp at hlim; omega)
      cases ht : is_option_terminator opt with
      | true =>
        have hh : handle_token specs opt parsed = (parsed, Option.none, true) :=
          ht_terminator ht
        rw [parse_from_stop hu hh, parse_drain_all parsed (by simp at hlim ⊢; omega),
          token_fates_terminator ht]
        refine List.Forall₂.cons ?_ ?_
        · show opt = OPTION_TERMINATOR
          simpa [is_option_terminator] using ht
        · exact forall₂_fate_other _ rest (fun x hx => by simp [hx])
      | false =>
      cases hlp : is_long_option_prefix opt with
      | true =>
        cases hvn : is_valid_long_option_name (get_long_option_name opt) with
        | false =>
          have hh : handle_token specs opt parsed =
              (push_unknown parsed (get_long_option_name opt), Option.none, false) :=
            ht_long_invalid ht hlp hvn
          rw [parse_from_go hu hh,
            token_fates_long_go ht hlp (by simp [long_consumes_next, hvn])]
          refine List.Forall₂.cons (Or.inr (Or.inl ?_))
            (ih rest hlen' (count + 1) _ (by simp at hlim ⊢; omega))
          exact grows_unknown_mem (parse_from_grows specs rest (count + 1) _)
            (push_unknown_mem parsed _)
        | true =>
          cases hm : long_opt_match specs (get_long_option_name opt) with
          | none =>
            have hh : handle_token specs opt parsed =
                (push_unknown parsed (get_long_option_name opt), Option.none, false) :=
              ht_long_nomatch ht hlp hvn hm
            rw [parse_from_go hu hh,
              token_fates_long_go ht hlp (by simp [long_consumes_next, hvn, hm])]
            refine List.Forall₂.cons (Or.inr (Or.inl ?_))
              (ih rest hlen' (count + 1) _ (by simp at hlim ⊢; omega))
            exact grows_unknown_mem (parse_from_grows specs rest (count + 1) _)
              (push_unknown_mem parsed _)
          | some spec =>
            cases hvt : spec.value_type with
            | required =>
              cases hes : is_long_option_equal_sign opt with
              | true =>
                have hh : handle_token specs opt parsed =
                    (push_option parsed ⟨spec.id, get_long_option_name opt, true,
                      some (get_long_option_equal_value opt)⟩, Option.none, false) :=
                  ht_long_required_eq ht hlp hvn hm hvt hes
                rw [parse_from_go hu hh,
                  token_fates_long_go ht hlp (by simp [long_consumes_next, hvn, hm, hvt, hes])]
                refine List.Forall₂.cons
                  (Or.inl ⟨⟨spec.id, get_long_option_name opt, true,
                    some (get_long_option_equal_value opt)⟩, ?_, rfl⟩)
                  (ih rest hlen' (count + 1) _ (by simp at hlim ⊢; omega))
                exact grows_opt_mem (parse_from_grows specs rest (count + 1) _)
                  (push_option_mem parsed _)
              | false =>
                have hh : handle_token specs opt parsed =
                    (parsed, some (spec.id, get_long_option_name opt), false) :=
                  ht_long_required_pending ht hlp hvn hm hvt hes
                have hc : long_consumes_next specs opt = true := by
                  simp [long_consumes_next, hvn, hm, hvt, hes]
                cases rest with
                | nil =>
                  rw [parse_from_pending_nil hu hh, token_fates_long_nil ht hlp hc]
                  exact List.Forall₂.cons
                    (Or.inl ⟨⟨spec.id, get_long_option_name opt, true, Option.none⟩,
                      push_option_mem .., rfl⟩) List.Forall₂.nil
                | cons v rest2 =>
                  have hu2 : specs.is_under_limit (count + 1) = true :=
                    is_under_limit_true (by simp at hlim; omega)
                  rw [parse_from_pending_next hu hh hu2, token_fates_long_next ht hlp hc]
                  have hgr := parse_from_grows specs rest2 (count + 1 + 1)
                    (push_option parsed ⟨spec.id, get_long_option_name opt, true, some v⟩)
                  have hmem := grows_opt_mem hgr (push_option_mem parsed
                    ⟨spec.id, get_long_option_name opt, true, some v⟩)
                  exact List.Forall₂.cons (Or.inl ⟨_, hmem, rfl⟩)
                    (List.Forall₂.cons ⟨_, hmem, rfl⟩
                      (ih rest2 (by simp at hlen'; omega) (count + 1 + 1) _
                        (by simp at hlim ⊢; omega)))
            | optional =>
              have hh : handle_token specs opt parsed =
                  (push_option parsed ⟨spec.id, get_long_option_name opt, false,
                    if is_long_option_equal_sign opt then
                      some (get_long_option_equal_value opt) else Option.none⟩,
                   Option.none, false) :=
                ht_long_optional ht hlp hvn hm hvt
              rw [parse_from_go hu hh,
                token_fates_long_go ht hlp (by simp [long_consumes_next, hvn, hm, hvt])]
              refine List.Forall₂.cons
                (Or.inl ⟨⟨spec.id, get_long_option_name opt, false,
                  if is_long_option_equal_sign opt then
                    some (get_long_option_equal_value opt) else Option.none⟩, ?_, rfl⟩)
                (ih rest hlen' (count + 1) _ (by simp at hlim ⊢; omega))
              exact grows_opt_mem (parse_from_grows specs rest (count + 1) _)
                (push_option_mem parsed _)
            | none =>
              cases hes : is_long_option_equal_sign opt with
              | true =>
                have hh : handle_token specs opt parsed =
                    (push_unknown parsed (get_long_option_name opt ++ "="),
                     Option.none, false) :=
                  ht_long_none_eq ht hlp hvn hm hvt hes
                rw [parse_from_go hu hh,
                  token_fates_long_go ht hlp (by simp [long_consumes_next, hvn, hm, hvt])]
                refine List.Forall₂.cons (Or.inr (Or.inr ?_))
                  (ih rest hlen' (count + 1) _ (by simp at hlim ⊢; omega))
                exact grows_unknown_mem (parse_from_grows specs rest (count + 1) _)
                  (push_unknown_mem parsed _)
              | false =>
                have hh : handle_token specs opt parsed =
                    (push_option parsed ⟨spec.id, get_long_option_name opt, false,
                      Option.none⟩, Option.none, false) :=
                  ht_long_none ht hlp hvn hm hvt hes
                rw [parse_from_go hu hh,
                  token_fates_long_go ht hlp (by simp [long_consumes_next, hvn, hm, hvt])]
                refine List.Forall₂.cons
                  (Or.inl ⟨⟨spec.id, get_long_option_name opt, false, Option.none⟩, ?_, rfl⟩)
                  (ih rest hlen' (count + 1) _ (by simp at hlim ⊢; omega))
                exact grows_opt_mem (parse_from_grows specs rest (count + 1) _)
                  (push_option_mem parsed _)
      | false =>
      cases hsp : is_short_option_prefix opt with
      | true =>
        cases hcl : parse_short_cluster specs (get_short_option_series opt).data parsed with
        | mk parsed2 pending =>
          have hh : handle_token specs opt parsed = (parsed2, pending, false) :=
            ht_short ht hlp hsp hcl
          have hacc := parse_short_cluster_accounts specs (get_short_option_series opt).data parsed
          have hpend := parse_short_cluster_pending specs (get_short_option_series opt).data parsed
          rw [hcl] at hacc hpend
          dsimp only at hacc hpend
          cases pending with
          | none =>
            have hc : cluster_consumes_next specs (get_short_option_series opt).data = false := by
              simpa using hpend.symm
            rw [parse_from_go hu hh, token_fates_short_go ht hlp hsp hc]
            have hgr := parse_from_grows specs rest (count + 1) parsed2
            refine List.Forall₂.cons ?_
              (ih rest hlen' (count + 1) _ (by simp at hlim ⊢; omega))
            intro c hc2
            rcases hacc c hc2 with ⟨o, ho, hn⟩ | h2 | ⟨o, ho, w, hw, hcw⟩ | ⟨i, hi⟩
            · exact Or.inl ⟨o, grows_opt_mem hgr ho, hn⟩
            · exact Or.inr (Or.inl (grows_unknown_mem hgr h2))
            · exact Or.inr (Or.inr ⟨o, grows_opt_mem hgr ho, w, hw, hcw⟩)
            · simp at hi
          | some pend =>
            obtain ⟨pid, pnm⟩ := pend
            have hc : cluster_consumes_next specs (get_short_option_series opt).data = true := by
              simpa using hpend.symm
            cases rest with
            | nil =>
              rw [parse_from_pending_nil hu hh, token_fates_short_nil ht hlp hsp hc]
              refine List.Forall₂.cons ?_ List.Forall₂.nil
              intro c hc2
              rcases hacc c hc2 with ⟨o, ho, hn⟩ | h2 | ⟨o, ho, w, hw, hcw⟩ | ⟨i, hi⟩
              · exact Or.inl ⟨o, grows_opt_mem (push_option_grows ..) ho, hn⟩
              · exact Or.inr (Or.inl (grows_unknown_mem (push_option_grows ..) h2))
              · exact Or.inr (Or.inr ⟨o, grows_opt_mem (push_option_grows ..) ho, w, hw, hcw⟩)
              · simp only [Option.some.injEq, Prod.mk.injEq] at hi
                exact Or.inl ⟨⟨pid, pnm, true, Option.none⟩, push_option_mem .., hi.2⟩
            | cons v rest2 =>
              have hu2 : specs.is_under_limit (count + 1) = true :=
                is_under_limit_true (by simp at hlim; omega)
              rw [parse_from_pending_next hu hh hu2, token_fates_short_next ht hlp hsp hc]
              have hgr := parse_from_grows specs rest2 (count + 1 + 1)
                (push_option parsed2 ⟨pid, pnm, true, some v⟩)
              have hmem := grows_opt_mem hgr (push_option_mem parsed2 ⟨pid, pnm, true, some v⟩)
              refine List.Forall₂.cons ?_
                (List.Forall₂.cons ⟨_, hmem, rfl⟩
                  (ih rest2 (by simp at hlen'; omega) (count + 1 + 1) _
                    (by simp at hlim ⊢; omega)))
              intro c hc2
              rcases hacc c hc2 with ⟨o, ho, hn⟩ | h2 | ⟨o, ho, w, hw, hcw⟩ | ⟨i, hi⟩
              · exact Or.inl ⟨o, grows_opt_mem hgr (grows_opt_mem (push_option_grows ..) ho), hn⟩
              · exact Or.inr (Or.inl (grows_unknown_mem hgr
                  (grows_unknown_mem (push_option_grows ..) h2)))
              · exact Or.inr (Or.inr ⟨o,
                  grows_opt_mem hgr (grows_opt_mem (push_option_grows ..) ho), w, hw, hcw⟩)
              · simp only [Option.some.injEq, Prod.mk.injEq] at hi
                exact Or.inl ⟨⟨pid, pnm, true, some v⟩, hmem, hi.2⟩
      | false =>
      cases hoe : specs.is_flag .OptionsEverywhere with
      | true =>
        have hh : handle_token specs opt parsed =
            ({ parsed with other := parsed.other ++ [opt] }, Option.none, false) :=
          ht_other_everywhere ht hlp hsp hoe
        rw [parse_from_go hu hh, token_fates_other_go ht hlp hsp hoe]
        refine List.Forall₂.cons ?_ (ih rest hlen' (count + 1) _ (by simp at hlim ⊢; omega))
        exact grows_other_mem (parse_from_grows specs rest (count + 1) _) (by simp)
      | false =>
        have hh : handle_token specs opt parsed =
            ({ parsed with other := parsed.other ++ [opt] }, Option.none, true) :=
          ht_other_stop ht hlp hsp hoe
        rw [parse_from_stop hu hh, parse_drain_all _ (by simp at hlim ⊢; omega),
          token_fates_other_stop ht hlp hsp hoe]
        refine List.Forall₂.cons ?_ ?_
        · show opt ∈ ({ parsed with other := parsed.other ++ [opt] } : Args).other ++ rest
          simp
        · exact forall₂_fate_other _ rest (fun x hx => by simp [hx])

/-- At most one token is assigned the terminator fate: only the first
top-level `--` stops the loop, and everything after it is positional. -/
theorem token_fates_count_terminator (specs : OptSpecs) :
    ∀ (n : Nat) (args : List String), args.length ≤ n →
      (token_fates specs args).count Fate.terminator ≤ 1 := by
  intro n
  induction n with
  | zero =>
    intro args hlen
    obtain rfl : args = [] := List.length_eq_zero.mp (Nat.le_zero.mp hlen)
    simp [token_fates]
  | succ n ih =>
    intro args hlen
    cases args with
    | nil => simp [token_fates]
    | cons opt rest =>
      have hlen' : rest.length ≤ n := by simp at hlen; omega
      have hmap : ((List.replicate rest.length Fate.other).count Fate.terminator) = 0 := by
        rw [List.count_eq_zero]
        intro hmem
        cases List.eq_of_mem_replicate hmem
      cases ht : is_option_terminator opt with
      | true =>
        rw [token_fates_terminator ht]
        simp [List.count_cons, hmap]
      | false =>
      cases hlp : is_long_option_prefix opt with
      | true =>
        cases hc : long_consumes_next specs opt with
        | false =>
          rw [token_fates_long_go ht hlp hc]
          simpa [List.count_cons] using ih rest hlen'
        | true =>
          cases rest with
          | nil => rw [token_fates_long_nil ht hlp hc]; simp [List.count_cons]
          | cons v rest2 =>
            rw [token_fates_long_next ht hlp hc]
            simpa [List.count_cons] using ih rest2 (by simp at hlen'; omega)
      | false =>
      cases hsp : is_short_option_prefix opt with
      | true =>
        cases hc : cluster_consumes_next specs (get_short_option_series opt).data with
        | false =>
          rw [token_fates_short_go ht hlp hsp hc]
          simpa [List.count_cons] using ih rest hlen'
        | true =>
          cases rest with
          | nil => rw [token_fates_short_nil ht hlp hsp hc]; simp [List.count_cons]
          | cons v rest2 =>
            rw [token_fates_short_next ht hlp hsp hc]
            simpa [List.count_cons] using ih rest2 (by simp at hlen'; omega)
      | false =>
      cases hoe : specs.is_flag .OptionsEverywhere with
      | true =>
        rw [token_fates_other_go ht hlp hsp hoe]
        simpa [List.count_cons] using ih rest hlen'
      | false =>
        rw [token_fates_other_stop ht hlp hsp hoe]
        simp [List.count_cons, hmap]

/-! ## The event decomposition of the parse result

The lemmas below identify the final `options` and `unknown` fields, in
the regime where the argument-count limit admits the whole input, with
the state-free event streams of `parse_events`: `options` is the plain
concatenation of the per-token recordings in input order (so the loop
never reorders or deduplicates it) and `unknown` is the keep-first
fold of the unknown-name stream. -/

theorem parse_short_cluster_events (specs : OptSpecs) :
    ∀ (cs : List Char) (parsed : Args),
      parse_short_cluster specs cs parsed =
        ({ parsed with
            options := parsed.options ++ (cluster_step specs cs).1,
            unknown := record_unknowns parsed.unknown (cluster_step specs cs).2.1 },
         (cluster_step specs cs).2.2) := by
  intro cs
  induction cs with
  | nil =>
    intro parsed
    simp [parse_short_cluster, cluster_step, record_unknowns]
  | cons c cs ih =>
    intro parsed
    simp only [parse_short_cluster, cluster_step]
    split
    · cases hm : specs.get_short_option_match (String.mk [c]) with
      | none =>
        simp only [hm]
        rw [ih (push_unknown parsed (String.mk [c]))]
        simp [record_unknowns, push_unknown_options, push_unknown_other,
          push_unknown_flag, push_unknown_unknown]
      | some spec =>
        cases hv : spec.value_type with
        | required =>
          simp only [hm, hv]
          split
          · simp [push_option, record_unknowns]
          · simp [record_unknowns]
        | optional =>
          simp [hm, hv, push_option, record_unknowns]
        | none =>
          simp only [hm, hv]
          rw [ih (push_option parsed ⟨spec.id, String.mk [c], false, Option.none⟩)]
          simp [push_option, record_unknowns]
    · rw [ih (push_unknown parsed (String.mk [c]))]
      simp [record_unknowns, push_unknown_options, push_unknown_other,
        push_unknown_flag, push_unknown_unknown]

/-- One loop-body iteration realizes exactly the recordings of
`token_step`: the new `options` suffix, the unknown names folded in
through `record_unknown`, and the same pending option and stop flag. -/
theorem handle_token_events (specs : OptSpecs) (opt : String) (parsed : Args) :
    (handle_token specs opt parsed).1.options = parsed.options ++ (token_step specs opt).1 ∧
    (handle_token specs opt parsed).1.unknown =
      record_unknowns parsed.unknown (token_step specs opt).2.1 ∧
    (handle_token specs opt parsed).2.1 = (token_step specs opt).2.2.1 ∧
    (handle_token specs opt parsed).2.2 = (token_step specs opt).2.2.2 := by
  cases ht : is_option_terminator opt with
  | true =>
    rw [ht_terminator ht]
    simp [token_step, ht, record_unknowns]
  | false =>
  cases hlp : is_long_option_prefix opt with
  | true =>
    cases hvn : is_valid_long_option_name (get_long_option_name opt) with
    | false =>
      rw [ht_long_invalid ht hlp hvn]
      simp [token_step, ht, hlp, hvn, record_unknowns, push_unknown_options,
        push_unknown_unknown]
    | true =>
      cases hm : long_opt_match specs (get_long_option_name opt) with
      | none =>
        rw [ht_long_nomatch ht hlp hvn hm]
        simp [token_step, ht, hlp, hvn, hm, record_unknowns, push_unknown_options,
          push_unknown_unknown]
      | some spec =>
        cases hvt : spec.value_type with
        | required =>
          cases hes : is_long_option_equal_sign opt with
          | true =>
            rw [ht_long_required_eq ht hlp hvn hm hvt hes]
            simp [token_step, ht, hlp, hvn, hm, hvt, hes, record_unknowns, push_option]
          | false =>
            rw [ht_long_required_pending ht hlp hvn hm hvt hes]
            simp [token_step, ht, hlp, hvn, hm, hvt, hes, record_unknowns]
        | optional =>
          rw [ht_long_optional ht hlp hvn hm hvt]
          simp [token_step, ht, hlp, hvn, hm, hvt, record_unknowns, push_option]
        | none =>
          cases hes : is_long_option_equal_sign opt with
          | true =>
            rw [ht_long_none_eq ht hlp hvn hm hvt hes]
            simp [token_step, ht, hlp, hvn, hm, hvt, hes, record_unknowns,
              push_unknown_options, push_unknown_unknown]
          | false =>
            rw [ht_long_none ht hlp hvn hm hvt hes]
            simp [token_step, ht, hlp, hvn, hm, hvt, hes, record_unknowns, push_option]
  | false =>
  cases hsp : is_short_option_prefix opt with
  | true =>
    rw [ht_short ht hlp hsp
      (parse_short_cluster_events specs (get_short_option_series opt).data parsed)]
    simp [token_step, ht, hlp, hsp]
  | false =>
  cases hoe : specs.is_flag .OptionsEverywhere with
  | true =>
    rw [ht_other_everywhere ht hlp hsp hoe]
    simp [token_step, ht, hlp, hsp, hoe, record_unknowns]
  | false =>
    rw [ht_other_stop ht hlp hsp hoe]
    simp [token_step, ht, hlp, hsp, hoe, record_unknowns]

/-! Unfolding lemmas for `parse_events`. -/

theorem parse_events_nil {specs : OptSpecs} : parse_events specs [] = ([], []) := by
  rw [parse_events.eq_def]

theorem parse_events_stop {specs : OptSpecs} {opt : String} {rest : List String}
    {os : List Opt} {us : List String}
    (hts : token_step specs opt = (os, us, Option.none, true)) :
    parse_events specs (opt :: rest) = (os, us) := by
  rw [parse_events.eq_def]
  simp [hts]

theorem parse_events_go {specs : OptSpecs} {opt : String} {rest : List String}
    {os : List Opt} {us : List String}
    (hts : token_step specs opt = (os, us, Option.none, false)) :
    parse_events specs (opt :: rest) =
      (os ++ (parse_events specs rest).1, us ++ (parse_events specs rest).2) := by
  rw [parse_events.eq_def]
  simp [hts]

theorem parse_events_pending_next {specs : OptSpecs} {opt v : String} {rest2 : List String}
    {os : List Opt} {us : List String} {id nm : String} {b : Bool}
    (hts : token_step specs opt = (os, us, some (id, nm), b)) :
    parse_events specs (opt :: v :: rest2) =
      (os ++ [⟨id, nm, true, some v⟩] ++ (parse_events specs rest2).1,
       us ++ (parse_events specs rest2).2) := by
  rw [parse_events.eq_def]
  simp [hts]

theorem parse_events_pending_nil {specs : OptSpecs} {opt : String}
    {os : List Opt} {us : List String} {id nm : String} {b : Bool}
    (hts : token_step specs opt = (os, us, some (id, nm), b)) :
    parse_events specs [opt] = (os ++ [⟨id, nm, true, Option.none⟩], us) := by
  rw [parse_events.eq_def]
  simp [hts]

/-- Decomposition of the main loop over the input: when the
argument-count limit admits every remaining token, `options` grows by
exactly the option events in input order — never reordered, never
deduplicated — and `unknown` grows by the keep-first recording fold of
the unknown-name events. -/
theorem parse_main_events (specs : OptSpecs) :
    ∀ (n : Nat) (args : List String), args.length ≤ n →
      ∀ (count : Nat) (parsed : Args), count + args.length ≤ specs.limit →
        (parse_main specs args count parsed).2.2.options
            = parsed.options ++ (parse_events specs args).1 ∧
        (parse_main specs args count parsed).2.2.unknown
            = record_unknowns parsed.unknown (parse_events specs args).2 := by
  intro n
  induction n with
  | zero =>
    intro args hlen count parsed _
    obtain rfl : args = [] := List.length_eq_zero.mp (Nat.le_zero.mp hlen)
    rw [main_nil]
    simp [parse_events_nil, record_unknowns]
  | succ n ih =>
    intro args hlen count parsed hlim
    cases args with
    | nil =>
      rw [main_nil]
      simp [parse_events_nil, record_unknowns]
    | cons opt rest =>
      have hlen' : rest.length ≤ n := by simp at hlen; omega
      have hu : specs.is_under_limit count = true := by
        apply is_under_limit_true
        simp at hlim
        omega
      have hev := handle_token_events specs opt parsed
      cases hh : handle_token specs opt parsed with
      | mk parsed2 pb =>
        obtain ⟨pend, stop⟩ := pb
        rw [hh] at hev
        dsimp only at hev
        obtain ⟨hops, hunk, hpend, hstop⟩ := hev
        cases pend with
        | none =>
          cases stop with
          | true =>
            have hts : token_step specs opt =
                ((token_step specs opt).1, (token_step specs opt).2.1,
                 (token_step specs opt).2.2.1, (token_step specs opt).2.2.2) := rfl
            rw [← hpend, ← hstop] at hts
            rw [main_stop hu hh, parse_events_stop hts]
            exact ⟨by simp [hops], by simp [hunk]⟩
          | false =>
            have hts : token_step specs opt =
                ((token_step specs opt).1, (token_step specs opt).2.1,
                 (token_step specs opt).2.2.1, (token_step specs opt).2.2.2) := rfl
            rw [← hpend, ← hstop] at hts
            rw [main_go hu hh, parse_events_go hts]
            have hlim' : count + 1 + rest.length ≤ specs.limit := by
              simp at hlim; omega
            obtain ⟨ih1, ih2⟩ := ih rest hlen' (count + 1) parsed2 hlim'
            constructor
            · rw [ih1, hops]; simp
            · rw [ih2, hunk]; simp [record_unknowns, List.foldl_append]
        | some pend0 =>
          obtain ⟨pid, pnm⟩ := pend0
          have hts : token_step specs opt =
              ((token_step specs opt).1, (token_step specs opt).2.1,
               (token_step specs opt).2.2.1, (token_step specs opt).2.2.2) := rfl
          rw [← hpend] at hts
          cases rest with
          | nil =>
            rw [parse_events_pending_nil hts]
            cases hu2 : specs.is_under_limit (count + 1) with
            | true =>
              rw [main_pending_empty hu hh hu2]
              exact ⟨by simp [push_option, hops], by simp [push_option, hunk]⟩
            | false =>
              rw [main_pending_over hu hh hu2, main_nil]
              exact ⟨by simp [push_option, hops], by simp [push_option, hunk]⟩
          | cons v rest2 =>
            have hu2 : specs.is_under_limit (count + 1) = true := by
              apply is_under_limit_true
              simp at hlim
              omega
            rw [main_pending_next hu hh hu2, parse_events_pending_next hts]
            have hlen2 : rest2.length ≤ n := by simp at hlen; omega
            have hlim2 : count + 1 + 1 + rest2.length ≤ specs.limit := by
              simp at hlim; omega
            obtain ⟨ih1, ih2⟩ := ih rest2 hlen2 (count + 1 + 1)
              (push_option parsed2 ⟨pid, pnm, true, some v⟩) hlim2
            constructor
            · rw [ih1]; simp [push_option, hops]
            · rw [ih2]; simp [push_option, hunk, record_unknowns, List.foldl_append]

/-- The decomposition carried through the drain loop to `parse`
itself. -/
theorem parse_events_eq (specs : OptSpecs) (args : List String)
    (h : args.length ≤ specs.limit) :
    (parse specs args).options = (parse_events specs args).1 ∧
    (parse specs args).unknown = record_unknowns [] (parse_events specs args).2 := by
  obtain ⟨h1, h2⟩ := parse_main_events specs args.length args le_rfl 0 Args.new
    (by simpa using h)
  cases hm : parse_main specs args 0 Args.new with
  | mk rest cp =>
    cases cp with
    | mk c p =>
      rw [hm] at h1 h2
      dsimp only at h1 h2
      have hp : parse specs args = parse_drain specs rest c p := by
        unfold parse; rw [hm]
      rw [hp, parse_drain_eq]
      exact ⟨by simpa [Args.new] using h1, by simpa [Args.new] using h2⟩

theorem spec_first_occurrences_nil : spec_first_occurrences [] = [] := by
  rw [spec_first_occurrences.eq_def]

theorem spec_first_occurrences_cons (a : String) (l : List String) :
    spec_first_occurrences (a :: l) =
      a :: spec_first_occurrences (l.filter (fun x => x != a)) := by
  rw [spec_first_occurrences.eq_def]

/-- The recording fold keeps exactly the first occurrence of each name
not already recorded: it agrees with the spec-side first-occurrence
selection on the stream of names. -/
theorem record_unknowns_first_occurrences :
    ∀ (ns u : List String),
      record_unknowns u ns =
        u ++ spec_first_occurrences (ns.filter (fun x => !(u.contains x))) := by
  intro ns
  induction ns with
  | nil =>
    intro u
    simp [record_unknowns, spec_first_occurrences_nil]
  | cons a ns ih =>
    intro u
    by_cases ha : a ∈ u
    · have h1 : record_unknowns u (a :: ns) = record_unknowns u ns := by
        simp [record_unknowns, record_unknown, ha]
      have h2 : (a :: ns).filter (fun x => !(u.contains x)) =
          ns.filter (fun x => !(u.contains x)) := by
        rw [List.filter_cons]
        simp [ha]
      rw [h1, ih u, h2]
    · have h1 : record_unknowns u (a :: ns) = record_unknowns (u ++ [a]) ns := by
        simp [record_unknowns, record_unknown, ha]
      have h2 : (a :: ns).filter (fun x => !(u.contains x)) =
          a :: (ns.filter (fun x => !(u.contains x))) := by
        rw [List.filter_cons]
        simp [ha]
      have hpt : ∀ x ∈ ns, (!((u ++ [a]).contains x)) =
          ((x != a) && (!(u.contains x))) := by
        intro x _
        by_cases hxu : x ∈ u <;> by_cases hxa : x = a <;>
          simp [hxu, hxa]
      have h3 : ns.filter (fun x => !((u ++ [a]).contains x)) =
          (ns.filter (fun x => !(u.contains x))).filter (fun x => x != a) := by
        rw [List.filter_filter]
        exact List.filter_congr hpt
      rw [h1, ih (u ++ [a]), h2, h3, spec_first_occurrences_cons]
      simp

theorem record_unknowns_nil_first_occurrences (ns : List String) :
    record_unknowns [] ns = spec_first_occurrences ns := by
  rw [record_unknowns_first_occurrences ns []]
  simp

/-- A token whose recordings are a fixed event list, no pending option
and no stop contributes those recordings once per occurrence: repeated
`n` times, the event stream holds `n` copies. -/
theorem parse_events_replicate {specs : OptSpecs} {t : String} {os : List Opt}
    {us : List String} (hts : token_step specs t = (os, us, Option.none, false)) :
    ∀ n : Nat, (parse_events specs (List.replicate n t)).1.length = n * os.length := by
  intro n
  induction n with
  | zero => simp [parse_events_nil]
  | succ n ihn =>
    rw [List.replicate_succ, parse_events_go hts]
    simp [ihn, Nat.succ_mul, Nat.add_comm]

/-! ## Lemmas about the limit-aware parser -/

theorem push_optionL_full {specs : LimitAware.OptSpecsL} {acc : Args} {o : Opt}
    (h : specs.option_limit ≤ acc.options.length) :
    LimitAware.push_optionL specs acc o = acc := by
  unfold LimitAware.push_optionL
  rw [if_neg (by omega)]

theorem htL_long_required_pending {specs : LimitAware.OptSpecsL} {opt : String} {parsed : Args}
    {spec : LimitAware.OptSpecL}
    (ht : is_option_terminator opt = false) (hlp : is_long_option_prefix opt = true)
    (hvn : is_valid_long_option_name (get_long_option_name opt) = true)
    (hm : LimitAware.long_opt_matchL specs (get_long_option_name opt) = some spec)
    (hvt : spec.value_type = LimitAware.OptValue.required)
    (hes : is_long_option_equal_sign opt = false) :
    LimitAware.handle_tokenL specs opt parsed =
      (parsed, some (spec.id, get_long_option_name opt, LimitAware.OptValue.required), false) := by
  simp [LimitAware.handle_tokenL, ht, hlp, hvn, hm, hvt, hes]

theorem mainL_pending_next {specs : LimitAware.OptSpecsL} {opt v : String} {rest2 : List String}
    {parsed parsed2 : Args} {id nm : String} {vt : LimitAware.OptValue} {b : Bool}
    (hsat : LimitAware.saturatedL specs parsed = false)
    (hh : LimitAware.handle_tokenL specs opt parsed = (parsed2, some (id, nm, vt), b)) :
    LimitAware.parse_mainL specs (opt :: v :: rest2) parsed =
      LimitAware.parse_mainL specs rest2
        (LimitAware.push_optionL specs parsed2 ⟨id, nm, true,
          if vt = LimitAware.OptValue.requiredNonEmpty ∧ v = "" then Option.none
          else some v⟩) := by
  simp [LimitAware.parse_mainL, hsat, hh]

/-! ## The claims -/

/-- **C1, counterexample.**  The claim's accounting fails for a
registry whose argument-count limit is 0: the input token `"foo"` is
not the `--` terminator, yet the parse result records it nowhere — not
as an option, a value, an `other` entry or an `unknown` entry (only the
`arg_limit_exceeded` flag is raised). -/
theorem C1_counterexample :
    parse ⟨[], [], 0⟩ ["foo"] = ⟨[], [], [], true⟩ ∧
    ("foo" : String) ≠ OPTION_TERMINATOR :=
  ⟨by decide, by decide⟩

/-- **C1 (amended).**  For every registry whose argument-count limit
admits the whole input — in particular every registry with the default
unbounded limit — `parse` terminates (it is a total function of the
input list) and assigns every input token exactly one fate, in order:
the obligation of each fate holds of the parse result (option token
with every character of a short cluster accounted, consumed value,
`other` entry, or `unknown` entry), and at most one token — the first
top-level `--` — has the terminator fate, which carries no output
obligation: that token is consumed and appears in no output sequence
on its own account. -/
theorem C1_parse_accounts_every_token (specs : OptSpecs) (args : List String)
    (h : args.length ≤ specs.limit) :
    List.Forall₂ (FateOK (parse specs args)) args (token_fates specs args) ∧
    (token_fates specs args).count Fate.terminator ≤ 1 := by
  constructor
  · rw [parse_eq_parse_from]
    exact parse_from_accounts specs args.length args le_rfl 0 Args.new (by simpa using h)
  · exact token_fates_count_terminator specs args.length args le_rfl

/-- Witness for C1: the amended accounting theorem applied at a
concrete registry and input that exercise a short option, a long
required value swallowing `--`, the terminator, and drained
positionals. -/
theorem C1_witness :
    (["-h", "--file", "--", "--", "x", "-q"] : List String).length ≤
      (⟨[⟨"file", "file", OptValueType.required⟩, ⟨"help", "h", OptValueType.none⟩],
        [], COUNTER_LIMIT⟩ : OptSpecs).limit ∧
    (List.Forall₂
      (FateOK (parse ⟨[⟨"file", "file", OptValueType.required⟩,
          ⟨"help", "h", OptValueType.none⟩], [], COUNTER_LIMIT⟩
        ["-h", "--file", "--", "--", "x", "-q"]))
      ["-h", "--file", "--", "--", "x", "-q"]
      (token_fates ⟨[⟨"file", "file", OptValueType.required⟩,
          ⟨"help", "h", OptValueType.none⟩], [], COUNTER_LIMIT⟩
        ["-h", "--file", "--", "--", "x", "-q"]) ∧
     (token_fates ⟨[⟨"file", "file", OptValueType.required⟩,
          ⟨"help", "h", OptValueType.none⟩], [], COUNTER_LIMIT⟩
        ["-h", "--file", "--", "--", "x", "-q"]).count Fate.terminator ≤ 1) :=
  ⟨by decide,
   C1_parse_accounts_every_token
     ⟨[⟨"file", "file", OptValueType.required⟩, ⟨"help", "h", OptValueType.none⟩],
       [], COUNTER_LIMIT⟩
     ["-h", "--file", "--", "--", "x", "-q"] (by decide)⟩

/-- **C2.**  For the registry declaring `("file","file",required)` and
the input `["--file","--","--","--"]`: the token after `--file` is
consumed as its value even though it is `--`; the second `--` is the
terminator and is dropped; the final `--` is drained into `other`;
`unknown` is empty (and no required value is missing). -/
theorem C2_terminator_as_required_value :
    parse ⟨[⟨"file", "file", OptValueType.required⟩], [], COUNTER_LIMIT⟩
        ["--file", "--", "--", "--"] =
      ⟨[⟨"file", "file", true, some "--"⟩], ["--"], [], false⟩ ∧
    (parse ⟨[⟨"file", "file", OptValueType.required⟩], [], COUNTER_LIMIT⟩
        ["--file", "--", "--", "--"]).required_value_missing = [] :=
  ⟨by decide, by decide⟩

/-- **C3** (spec-modelled limit-aware parser).  A required-value option
with no inline or `=` value consumes the next token from the shared
cursor even when the recognized-options limit is already reached and
the option itself is discarded: the continuation equals the parse
continued after both tokens with the state unchanged, so the consumed
token never reappears.  The concrete conjunct replays lib.rs test
`t_parsed_output_270`, where `"123"` is consumed as the discarded `-f`
option's value and never surfaces. -/
theorem C3_value_consumed_despite_option_limit
    (specs : LimitAware.OptSpecsL) (t v : String) (rs : List String) (acc : Args)
    (spec : LimitAware.OptSpecL)
    (hsat : LimitAware.saturatedL specs acc = false)
    (hterm : is_option_terminator t = false)
    (hlong : is_long_option_prefix t = true)
    (hvn : is_valid_long_option_name (get_long_option_name t) = true)
    (hm : LimitAware.long_opt_matchL specs (get_long_option_name t) = some spec)
    (hvt : spec.value_type = LimitAware.OptValue.required)
    (hes : is_long_option_equal_sign t = false)
    (hfull : specs.option_limit ≤ acc.options.length) :
    LimitAware.parse_mainL specs (t :: v :: rs) acc = LimitAware.parse_mainL specs rs acc ∧
    LimitAware.parseL ⟨[⟨"help", "h", LimitAware.OptValue.none⟩,
        ⟨"file", "f", LimitAware.OptValue.required⟩],
        [OptFlags.OptionsEverywhere], 1, 2, 1⟩ ["bar", "-habf", "123", "foo"] =
      ⟨[⟨"help", "h", false, Option.none⟩], ["bar", "foo"], ["a"], false⟩ := by
  constructor
  · rw [mainL_pending_next hsat (htL_long_required_pending hterm hlong hvn hm hvt hes),
      show (if LimitAware.OptValue.required = LimitAware.OptValue.requiredNonEmpty ∧ v = ""
        then Option.none else some v) = some v from if_neg (by simp),
      push_optionL_full hfull]
  · decide

/-- Witness for C3 at a concrete registry, accumulated state and
input. -/
theorem C3_witness :
    LimitAware.saturatedL ⟨[⟨"file", "file", LimitAware.OptValue.required⟩], [],
        1, COUNTER_LIMIT, COUNTER_LIMIT⟩ ⟨[⟨"file", "file", true, some "A"⟩], [], [], false⟩ =
      false ∧
    is_option_terminator "--file" = false ∧
    is_long_option_prefix "--file" = true ∧
    is_valid_long_option_name (get_long_option_name "--file") = true ∧
    LimitAware.long_opt_matchL ⟨[⟨"file", "file", LimitAware.OptValue.required⟩], [],
        1, COUNTER_LIMIT, COUNTER_LIMIT⟩ (get_long_option_name "--file") =
      some ⟨"file", "file", LimitAware.OptValue.required⟩ ∧
    is_long_option_equal_sign "--file" = false ∧
    (1 : Nat) ≤ ([⟨"file", "file", true, some "A"⟩] : List Opt).length ∧
    LimitAware.parse_mainL ⟨[⟨"file", "file", LimitAware.OptValue.required⟩], [],
        1, COUNTER_LIMIT, COUNTER_LIMIT⟩ ["--file", "B"]
        ⟨[⟨"file", "file", true, some "A"⟩], [], [], false⟩ =
      LimitAware.parse_mainL ⟨[⟨"file", "file", LimitAware.OptValue.required⟩], [],
        1, COUNTER_LIMIT, COUNTER_LIMIT⟩ []
        ⟨[⟨"file", "file", true, some "A"⟩], [], [], false⟩ :=
  ⟨by decide, by decide, by decide, by decide, by decide, by decide, by decide,
   (C3_value_consumed_despite_option_limit
     ⟨[⟨"file", "file", LimitAware.OptValue.required⟩], [], 1, COUNTER_LIMIT, COUNTER_LIMIT⟩
     "--file" "B" [] ⟨[⟨"file", "file", true, some "A"⟩], [], [], false⟩
     ⟨"file", "file", LimitAware.OptValue.required⟩
     (by decide) (by decide) (by decide) (by decide) (by decide) rfl (by decide)
     (by decide)).1⟩

/-- **C4.**  Without `OptionsEverywhere`, the first token that is
neither the terminator nor a long- or short-option token is appended to
`other` and stops the main loop; the drain loop then appends every
subsequent token to `other` in order, subject to the limit.  The
concrete conjunct is Scenario B: `["-h","foo","-h"]` with only short
`h` declared yields one recorded option and `other = ["foo","-h"]`,
the second `-h` never being scanned as an option. -/
theorem C4_first_positional_stops_option_scanning :
    (∀ (specs : OptSpecs) (t : String) (rs : List String) (count : Nat) (acc : Args),
      specs.is_under_limit count = true →
      specs.is_flag OptFlags.OptionsEverywhere = false →
      is_option_terminator t = false →
      is_long_option_prefix t = false →
      is_short_option_prefix t = false →
      parse_main specs (t :: rs) count acc =
        (rs, count + 1, { acc with other := acc.other ++ [t] })) ∧
    (∀ (specs : OptSpecs) (rs : List String) (count : Nat) (acc : Args),
      parse_drain specs rs count acc =
        { acc with
          other := acc.other ++ rs.take (specs.limit - count),
          arg_limit_exceeded :=
            acc.arg_limit_exceeded || decide (specs.limit - count < rs.length) }) ∧
    parse ⟨[⟨"help", "h", OptValueType.none⟩], [], COUNTER_LIMIT⟩ ["-h", "foo", "-h"] =
      ⟨[⟨"help", "h", false, Option.none⟩], ["foo", "-h"], [], false⟩ := by
  refine ⟨?_, ?_, by decide⟩
  · intro specs t rs count acc hu hoe ht hlp hsp
    rw [main_stop hu (ht_other_stop ht hlp hsp hoe)]
  · intro specs rs count acc
    exact parse_drain_eq specs rs count acc

/-- Witness for C4: the positional-stop step applied at a concrete
state. -/
theorem C4_witness :
    (⟨[], [], COUNTER_LIMIT⟩ : OptSpecs).is_under_limit 0 = true ∧
    (⟨[], [], COUNTER_LIMIT⟩ : OptSpecs).is_flag OptFlags.OptionsEverywhere = false ∧
    is_option_terminator "foo" = false ∧
    is_long_option_prefix "foo" = false ∧
    is_short_option_prefix "foo" = false ∧
    parse_main ⟨[], [], COUNTER_LIMIT⟩ ["foo", "bar"] 0 Args.new =
      (["bar"], 1, { Args.new with other := Args.new.other ++ ["foo"] }) :=
  ⟨by decide, by decide, by decide, by decide, by decide,
   C4_first_positional_stops_option_scanning.1 ⟨[], [], COUNTER_LIMIT⟩ "foo" ["bar"] 0 Args.new
     (by decide) (by decide) (by decide) (by decide) (by decide)⟩

/-- **C5** (spec-modelled limit-aware parser).  The
`required_value_missing` report contains exactly the recorded options
with `value_required = true` and absent value.  Under the plain
`Required` policy an explicit empty string (from `--file=` or from a
consumed empty token) is a present value and the option is never
reported; under `RequiredNonEmpty` the empty resolved value is
normalized to absent and the option is reported as missing. -/
theorem C5_required_value_missing_report :
    (∀ (a : Args) (o : Opt),
      o ∈ a.required_value_missing ↔
        o ∈ a.options ∧ o.value_required = true ∧ o.value = Option.none) ∧
    LimitAware.parseL ⟨[⟨"file", "file", LimitAware.OptValue.required⟩], [],
        COUNTER_LIMIT, COUNTER_LIMIT, COUNTER_LIMIT⟩ ["--file="] =
      ⟨[⟨"file", "file", true, some ""⟩], [], [], false⟩ ∧
    (LimitAware.parseL ⟨[⟨"file", "file", LimitAware.OptValue.required⟩], [],
        COUNTER_LIMIT, COUNTER_LIMIT, COUNTER_LIMIT⟩ ["--file="]).required_value_missing = [] ∧
    (LimitAware.parseL ⟨[⟨"file", "file", LimitAware.OptValue.required⟩], [],
        COUNTER_LIMIT, COUNTER_LIMIT, COUNTER_LIMIT⟩
        ["--file", ""]).required_value_missing = [] ∧
    LimitAware.parseL ⟨[⟨"file", "file", LimitAware.OptValue.requiredNonEmpty⟩], [],
        COUNTER_LIMIT, COUNTER_LIMIT, COUNTER_LIMIT⟩ ["--file="] =
      ⟨[⟨"file", "file", true, Option.none⟩], [], [], false⟩ ∧
    (LimitAware.parseL ⟨[⟨"file", "file", LimitAware.OptValue.requiredNonEmpty⟩], [],
        COUNTER_LIMIT, COUNTER_LIMIT, COUNTER_LIMIT⟩ ["--file="]).required_value_missing =
      [⟨"file", "file", true, Option.none⟩] ∧
    (LimitAware.parseL ⟨[⟨"file", "file", LimitAware.OptValue.requiredNonEmpty⟩], [],
        COUNTER_LIMIT, COUNTER_LIMIT, COUNTER_LIMIT⟩
        ["--file", ""]).required_value_missing = [⟨"file", "file", true, Option.none⟩] := by
  refine ⟨?_, by decide, by decide, by decide, by decide, by decide, by decide⟩
  intro a o
  unfold Args.required_value_missing
  rw [List.mem_filter]
  simp [Option.isNone_iff_eq_none]

/-- **C6.**  A long-option token that resolves to a declared no-value
option but contains `=` emits no `ParsedOption`: the string `name ++
"="` is recorded (once, deduplicated) into `unknown`, and that string
differs from the bare `name` produced by an unresolved long option. -/
theorem C6_no_value_option_with_equals_is_unknown
    (specs : OptSpecs) (t : String) (rs : List String) (count : Nat) (acc : Args)
    (spec : OptSpec)
    (hu : specs.is_under_limit count = true)
    (ht : is_option_terminator t = false)
    (hlp : is_long_option_prefix t = true)
    (hvn : is_valid_long_option_name (get_long_option_name t) = true)
    (hm : long_opt_match specs (get_long_option_name t) = some spec)
    (hvt : spec.value_type = OptValueType.none)
    (hes : is_long_option_equal_sign t = true) :
    parse_main specs (t :: rs) count acc =
      parse_main specs rs (count + 1) (push_unknown acc (get_long_option_name t ++ "=")) ∧
    (push_unknown acc (get_long_option_name t ++ "=")).options = acc.options ∧
    get_long_option_name t ++ "=" ≠ get_long_option_name t := by
  refine ⟨main_go hu (ht_long_none_eq ht hlp hvn hm hvt hes), push_unknown_options .., ?_⟩
  intro hcon
  have hlen := congrArg (fun s => s.data.length) hcon
  simp [String.data_append] at hlen

/-- Witness for C6 at the registry of lib.rs test
`t_parsed_output_180` and the token `--bar=`. -/
theorem C6_witness :
    (⟨[⟨"bar", "bar", OptValueType.none⟩], [], COUNTER_LIMIT⟩ : OptSpecs).is_under_limit 0 =
      true ∧
    is_option_terminator "--bar=" = false ∧
    is_long_option_prefix "--bar=" = true ∧
    is_valid_long_option_name (get_long_option_name "--bar=") = true ∧
    long_opt_match ⟨[⟨"bar", "bar", OptValueType.none⟩], [], COUNTER_LIMIT⟩
      (get_long_option_name "--bar=") = some ⟨"bar", "bar", OptValueType.none⟩ ∧
    is_long_option_equal_sign "--bar=" = true ∧
    (parse_main ⟨[⟨"bar", "bar", OptValueType.none⟩], [], COUNTER_LIMIT⟩ ["--bar="] 0 Args.new =
      parse_main ⟨[⟨"bar", "bar", OptValueType.none⟩], [], COUNTER_LIMIT⟩ [] 1
        (push_unknown Args.new (get_long_option_name "--bar=" ++ "=")) ∧
     (push_unknown Args.new (get_long_option_name "--bar=" ++ "=")).options =
       Args.new.options ∧
     get_long_option_name "--bar=" ++ "=" ≠ get_long_option_name "--bar=") :=
  ⟨by decide, by decide, by decide, by decide, by decide, by decide,
   C6_no_value_option_with_equals_is_unknown
     ⟨[⟨"bar", "bar", OptValueType.none⟩], [], COUNTER_LIMIT⟩ "--bar=" [] 0 Args.new
     ⟨"bar", "bar", OptValueType.none⟩
     (by decide) (by decide) (by decide) (by decide) (by decide) rfl (by decide)⟩

/-- **C7.**  Scenario D: with only `("debug","d",optional)` declared,
`["-abcd","-adbc"]` is scanned character by character; `a`, `b`, `c`
become deduplicated unknown entries across both clusters, the first `d`
has no inline remainder (value absent), and the second `d` takes its
cluster remainder `"bc"` as inline value. -/
theorem C7_cluster_scan_unknowns_and_inline_value :
    parse ⟨[⟨"debug", "d", OptValueType.optional⟩], [], COUNTER_LIMIT⟩ ["-abcd", "-adbc"] =
      ⟨[⟨"debug", "d", false, Option.none⟩, ⟨"debug", "d", false, some "bc"⟩],
        [], ["a", "b", "c"], false⟩ := by decide

/-- **C8, counterexample.**  The claim's "the same declared option
occurring n times yields n entries" fails for a registry with a
collection limit: with the limit set to 1, two occurrences of the
declared `-h` yield a single recorded entry. -/
theorem C8_counterexample :
    parse ⟨[⟨"help", "h", OptValueType.none⟩], [], 1⟩ ["-h", "-h"] =
      ⟨[⟨"help", "h", false, Option.none⟩], [], [], true⟩ := by decide

/-- **C8 (amended).**  Output-shape invariants of the parse result,
for every registry and every input: `unknown` holds no two equal
strings; `other` is a sublist of the input (input order, never
reordered); and, whenever the argument-count limit admits the whole
input — in particular with the default unbounded limit — `options` is
exactly the concatenation of the per-token option recordings
(`parse_events`) in input order, so it preserves occurrence order and
is never deduplicated, and `unknown` is exactly the first-occurrence
selection (`spec_first_occurrences`) from the stream of unknown-name
recordings in encounter order.  Consequently a declared option token
recording `os` per occurrence and occurring `n` times yields exactly
`n * os.length` entries — `n` entries for a token naming one declared
option. -/
theorem C8_output_invariants (specs : OptSpecs) (args : List String) :
    (parse specs args).unknown.Nodup ∧
    (parse specs args).other.Sublist args ∧
    (args.length ≤ specs.limit →
      (parse specs args).options = (parse_events specs args).1 ∧
      (parse specs args).unknown =
        spec_first_occurrences (parse_events specs args).2) ∧
    (∀ (t : String) (os : List Opt) (us : List String) (n : Nat),
      token_step specs t = (os, us, Option.none, false) →
      n ≤ specs.limit →
      (parse specs (List.replicate n t)).options.length = n * os.length) := by
  refine ⟨parse_unknown_nodup specs args, parse_other_sublist specs args, ?_, ?_⟩
  · intro h
    obtain ⟨h1, h2⟩ := parse_events_eq specs args h
    exact ⟨h1, by rw [h2, record_unknowns_nil_first_occurrences]⟩
  · intro t os us n hts hn
    have hlen : (List.replicate n t).length ≤ specs.limit := by simpa using hn
    rw [(parse_events_eq specs (List.replicate n t) hlen).1]
    exact parse_events_replicate hts n

/-- Witness for C8 at a concrete registry and inputs: the registry
declaring the no-value short option `-h`, the input
`["-xy", "-x", "foo", "-h"]` for the limit-conditioned decomposition,
and three repetitions of `-h` for the n-entries law. -/
theorem C8_witness :
    (["-xy", "-x", "foo", "-h"] : List String).length ≤
        (⟨[⟨"help", "h", OptValueType.none⟩], [], COUNTER_LIMIT⟩ : OptSpecs).limit ∧
    token_step ⟨[⟨"help", "h", OptValueType.none⟩], [], COUNTER_LIMIT⟩ "-h" =
      ([⟨"help", "h", false, Option.none⟩], [], Option.none, false) ∧
    (3 : Nat) ≤ (⟨[⟨"help", "h", OptValueType.none⟩], [], COUNTER_LIMIT⟩ : OptSpecs).limit ∧
    (parse ⟨[⟨"help", "h", OptValueType.none⟩], [], COUNTER_LIMIT⟩
        ["-xy", "-x", "foo", "-h"]).options =
      (parse_events ⟨[⟨"help", "h", OptValueType.none⟩], [], COUNTER_LIMIT⟩
        ["-xy", "-x", "foo", "-h"]).1 ∧
    (parse ⟨[⟨"help", "h", OptValueType.none⟩], [], COUNTER_LIMIT⟩
        ["-xy", "-x", "foo", "-h"]).unknown =
      spec_first_occurrences
        (parse_events ⟨[⟨"help", "h", OptValueType.none⟩], [], COUNTER_LIMIT⟩
          ["-xy", "-x", "foo", "-h"]).2 ∧
    (parse ⟨[⟨"help", "h", OptValueType.none⟩], [], COUNTER_LIMIT⟩
        (List.replicate 3 "-h")).options.length = 3 * 1 :=
  ⟨by decide, by decide, by decide,
   ((C8_output_invariants ⟨[⟨"help", "h", OptValueType.none⟩], [], COUNTER_LIMIT⟩
      ["-xy", "-x", "foo", "-h"]).2.2.1 (by decide)).1,
   ((C8_output_invariants ⟨[⟨"help", "h", OptValueType.none⟩], [], COUNTER_LIMIT⟩
      ["-xy", "-x", "foo", "-h"]).2.2.1 (by decide)).2,
   by
     have h := (C8_output_invariants ⟨[⟨"help", "h", OptValueType.none⟩], [], COUNTER_LIMIT⟩
        ["-xy", "-x", "foo", "-h"]).2.2.2 "-h" [⟨"help", "h", false, Option.none⟩] [] 3
        (by decide) (by decide)
     simpa using h⟩

/-- **C9.**  The character slice `chars[2..]` inside
`is_long_option_equal_sign` is always in bounds when the function is
reached from `parse`: there it is invoked only for a token whose
extracted long-option name passed the validity check, and a valid name
has at least 2 characters, all of which lie in the option text after
the `--` prefix.  The checked model of the Rust slice therefore never
takes its panic branch and agrees with the total scan. -/
theorem C9_equal_sign_scan_in_bounds (s : String)
    (_hlp : is_long_option_prefix s = true)
    (hvn : is_valid_long_option_name (get_long_option_name s) = true) :
    is_long_option_equal_sign_checked s = some (is_long_option_equal_sign s) := by
  have h2 : 2 ≤ (get_long_option_name s).data.length := by
    unfold is_valid_long_option_name at hvn
    split at hvn
    · cases hvn
    · next hcond =>
      simp only [Bool.or_eq_true, decide_eq_true_eq, not_or] at hcond
      omega
  have h3 : (get_long_option_name s).data.length ≤ (get_long_option s).data.length := by
    unfold get_long_option_name
    simpa using ((get_long_option s).data.takeWhile_sublist _).length_le
  simp only [is_long_option_equal_sign_checked, is_long_option_equal_sign]
  rw [if_neg (by omega)]

/-- Witness for C9 at the token `--ab=`. -/
theorem C9_witness :
    is_long_option_prefix "--ab=" = true ∧
    is_valid_long_option_name (get_long_option_name "--ab=") = true ∧
    is_long_option_equal_sign_checked "--ab=" = some (is_long_option_equal_sign "--ab=") :=
  ⟨by decide, by decide, C9_equal_sign_scan_in_bounds "--ab=" (by decide) (by decide)⟩

theorem find?_eq_head?_filter {α : Type} (p : α → Bool) (l : List α) :
    l.find? p = (l.filter p).head? := by
  induction l with
  | nil => rfl
  | cons x xs ih =>
    cases hx : p x with
    | true => rw [List.find?_cons_of_pos _ hx, List.filter_cons_of_pos hx]; rfl
    | false =>
      rw [List.find?_cons_of_neg _ (by simp [hx]), List.filter_cons_of_neg (by simp [hx]), ih]

theorem any_eq_isSome_find? {α : Type} (p : α → Bool) (l : List α) :
    l.any p = (l.find? p).isSome := by
  induction l with
  | nil => rfl
  | cons x xs ih =>
    cases hx : p x with
    | true => rw [List.any_cons, hx, List.find?_cons_of_pos _ hx, Bool.true_or]; rfl
    | false =>
      rw [List.any_cons, hx, List.find?_cons_of_neg _ (by simp [hx]), Bool.false_or, ih]

/-- **C10.**  The query methods are mutually coherent on every parse
result: `option_exists` agrees with `options_first` returning `Some`;
`options_first` and `options_last` are the head and last element of
`options_all` in command-line order, and are `None` exactly when
`options_all` is empty. -/
theorem C10_query_methods_coherent (a : Args) (id : String) :
    (a.option_exists id = (a.options_first id).isSome) ∧
    a.options_first id = (a.options_all id).head? ∧
    a.options_last id = (a.options_all id).getLast? ∧
    (a.options_first id = Option.none ↔ a.options_all id = []) := by
  refine ⟨?_, ?_, ?_, ?_⟩
  · exact any_eq_isSome_find? _ _
  · exact find?_eq_head?_filter _ _
  · show a.options.reverse.find? _ = _
    rw [find?_eq_head?_filter, List.filter_reverse, List.head?_reverse]
    rfl
  · show a.options.find? _ = Option.none ↔ _
    rw [find?_eq_head?_filter]
    exact List.head?_eq_none_iff

end JustGetopt
